import Mathlib

/-!
# Verification of the kvstore storage engine (yazgazan/kvstore)

This file is a shallow embedding, in Lean 4, of the core of an embedded
file-backed key/value store written in Go, together with theorems settling
a list of specification claims about it.

The embedding covers three layers, mirrored from the Go source:

* the chunk pool (`container/pool.go`): a variable-length allocator inside a
  single backing byte stream.  A pool is modelled as an association list from
  byte offsets (`ChunkPtr`s) to chunks; a chunk carries its header fields
  (`cap`, `size`, `free`) and its payload bytes.
* the KV-node doubly linked list and the on-disk hash map
  (`container/kvnode.go`, `container/hashmap.go`, `container/hashbuckets.go`):
  nodes and 128-entry bucket arrays are serialised into chunks exactly as the
  Go code serialises them (little-endian 8-byte pointers, 9-byte bucket
  entries), and all operations go through the byte-level encoding.
* the block file and objects (`block/*.go`): fixed-size blocks with
  `End`/`Next` headers, stream objects over block chains with read/write/seek,
  and the store facade (`kvstore.go`).

Modelling conventions, used throughout:

* a Go byte string is a `Bytes`: its length together with its value as a
  little-endian base-256 natural number (the byte at offset `i` is
  `val / 256 ^ i % 256`).  Concatenation, the little-endian integer fields
  of `encoding/binary`, and sub-slice reads are then plain arithmetic.
* Go machine integers are modelled as `Nat`, reduced `% 2 ^ 32` (or
  `% 2 ^ 64`) exactly where the Go code's fixed-width arithmetic can wrap;
  additions that cannot overflow for states with in-range fields are left
  as plain `Nat` additions.
* fallible Go code returns `Except Err α`; loops whose termination depends on
  the heap are given explicit fuel and return `Option (Except Err α)`, where
  `none` means the fuel ran out (the Go code loops or recurses forever /
  overflows the stack) and `some (.error e)` mirrors a returned Go error.
  A `none` arising where Go would dereference `nil` or index a slice out of
  range mirrors a Go panic.
* Go's `map` iteration order is unspecified; the model's free-chunk reuse
  scans the association list in insertion order.  Every concrete execution
  in this file has at most one free chunk that fits at each allocation, so
  the scan order is irrelevant there.
* the in-memory bucket-array objects of the Go hash map are write-through:
  every mutation of an entry is immediately persisted to the array's chunk
  (`hashBucket.Write`), so the in-memory copy always equals the decoded
  chunk contents.  The model therefore re-reads a bucket array from its
  chunk wherever the Go code uses the aliased in-memory object.
-/

set_option autoImplicit false
set_option maxRecDepth 100000
set_option exponentiation.threshold 20000

namespace KV

/-! ## Byte strings -/

/-- A byte string: `len` bytes whose little-endian base-256 value is `val`
(kept canonical, `val < 256 ^ len`, by every constructor below). -/
structure Bytes where
  len : ℕ
  val : ℕ
deriving DecidableEq, Repr

/-- The empty byte string. -/
def Bytes.empty : Bytes := ⟨0, 0⟩

/-- Concatenation of byte strings. -/
def Bytes.append (a b : Bytes) : Bytes := ⟨a.len + b.len, a.val + b.val * 256 ^ a.len⟩

/-- Byte string from a list of byte values. -/
def Bytes.ofList (l : List ℕ) : Bytes :=
  ⟨l.length, l.foldr (fun b acc => b % 256 + acc * 256) 0⟩

/-- The byte at offset `i`. -/
def Bytes.byte (b : Bytes) (i : ℕ) : ℕ := b.val / 256 ^ i % 256

/-- The value of the `n` bytes starting at offset `off`. -/
def Bytes.slice (b : Bytes) (off n : ℕ) : ℕ := b.val / 256 ^ off % 256 ^ n

/-- A little-endian 8-byte integer field at offset `off`, as `binary.Read`
reads an `int64` (all pointers handled by the store are non-negative). -/
def read64 (b : Bytes) (off : ℕ) : ℕ := b.slice off 8

/-- `n` zero bytes. -/
def Bytes.zeros (n : ℕ) : Bytes := ⟨n, 0⟩

/-! ## FNV-1a, 32 bit (`hash/fnv`), and the per-array salt -/

/-- One step of FNV-1a-32: xor the byte in, multiply by the FNV prime. -/
def fnvStep (h b : ℕ) : ℕ := (Nat.xor h b) * 16777619 % 2 ^ 32

/-- Folds `fnvStep` over the `n` low bytes of `v`. -/
def fnvAux : ℕ → ℕ → ℕ → ℕ
  | h, _, 0 => h
  | h, v, n + 1 => fnvAux (fnvStep h (v % 256)) (v / 256) n

/-- FNV-1a-32 of a byte string, as `hashKey` computes it
(`fnv.New32a` then `Write`). -/
def fnv1a32 (b : Bytes) : ℕ := fnvAux 2166136261 b.val b.len

/-- Digits used by Go's `strconv.FormatInt(pos, 32)`. -/
def digit32 (d : ℕ) : ℕ := if d < 10 then 48 + d else 87 + d

/-- Fuel-structured helper for `format32`; `fuel = n + 1` always suffices
since the argument shrinks by a factor of 32 each step. -/
def format32Aux : ℕ → ℕ → List ℕ
  | 0, _ => []
  | f + 1, n => if n < 32 then [digit32 n] else format32Aux f (n / 32) ++ [digit32 (n % 32)]

/-- Base-32 representation of `n` (ASCII codes, most significant digit first),
as `strconv.FormatInt(n, 32)` renders a non-negative `int64`. -/
def format32 (n : ℕ) : List ℕ := format32Aux (n + 1) n

/-- Slot index of `key` within the bucket array whose chunk sits at byte
position `arrayPos`: `fnv1a_32(salt ++ key) % 128` where the salt is the
base-32 rendering of `arrayPos` (`hashBuckets.bucket`). -/
def slotOf (arrayPos : ℕ) (key : Bytes) : ℕ :=
  fnv1a32 ((Bytes.ofList (format32 arrayPos)).append key) % 128

/-! ## The chunk pool (`container/pool.go`)

A `Chunk` is the in-memory/on-disk state of one chunk: header fields
`cap`, `size`, `free` plus the `cap` payload bytes that follow the header in
the backing object (as a little-endian base-256 value).  A `Pool` maps each
chunk's header byte position (its `ChunkPtr`) to its chunk; `fileEnd` is the
total size of the backing stream, where freshly allocated chunks are
appended.  The Go pool's `freeChunks` map is kept exactly in sync with the
`free` flags (`freeChunk`, `Alloc`, `NewPool`), so the model derives it from
the flags. -/

/-- Chunk header size: `Cap u32 + Size u32 + Free bool` = 9 bytes. -/
def headerSize : ℕ := 9

/-- Size of a serialised KV node: four 8-byte `ChunkPtr`s. -/
def sizeKVNode : ℕ := 32

/-- Number of entries of a bucket array (`HashMapN`). -/
def hashMapN : ℕ := 128

/-- List length threshold that triggers a bucket split (`HashMapMaxList`). -/
def hashMapMaxList : ℕ := 32

/-- Serialised size of one bucket entry: `Type u8 + Head i64` = 9 bytes. -/
def sizeHashBucket : ℕ := 9

/-- Serialised size of a bucket array: 128 entries of 9 bytes. -/
def sizeHashBuckets : ℕ := hashMapN * sizeHashBucket

structure Chunk where
  cap : ℕ
  size : ℕ
  free : Bool
  data : ℕ
deriving DecidableEq, Repr

structure Pool where
  chunks : List (ℕ × Chunk)
  fileEnd : ℕ
deriving DecidableEq, Repr

/-- Errors surfaced by the container layer. -/
inductive Err where
  /-- `Pool.Get`: "chunk not found at ..." -/
  | notFound (ptr : ℕ)
  /-- `Chunk.Write` / `Chunk.WriteAt`: "chunk too small" -/
  | tooSmall
  /-- `binary.Read` on a buffer with fewer bytes than the value needs. -/
  | shortRead
  /-- `hashBuckets.ReadFrom`: "expected to read %d bytes, read %d" -/
  | badBucketsLen
  /-- `hashBuckets.findBucket`: "invalid bucket type %v" -/
  | badBucketType
  /-- `hashBucket.Append`: "cannot append to bucket of type %v" -/
  | cannotAppend
  /-- `HashMap.Delete`: "key %q not found" -/
  | keyNotFound
  /-- `KVNode.DeleteAll`: ".DeleteAll() can only be called on the head node" -/
  | notHead
  /-- `Object.seek`: "unknown whence %d" -/
  | unknownWhence
  /-- `io.EOF` -/
  | eof
deriving DecidableEq, Repr

/-- Looks a chunk up by its pointer (`Pool.Get` without the error). -/
def Pool.find? (p : Pool) (ptr : ℕ) : Option Chunk :=
  (p.chunks.find? (fun pc => pc.1 = ptr)).map (·.2)

/-- `Pool.Get`: map lookup, not-found error when the pointer is not the header
position of a known chunk.  No file bytes are read. -/
def Pool.get (p : Pool) (ptr : ℕ) : Except Err Chunk :=
  match p.find? ptr with
  | none => .error (.notFound ptr)
  | some c => .ok c

/-- Replaces the binding of `ptr` in the association list (the Go code mutates
the unique `*Chunk` object held in the map). -/
def assocSet (l : List (ℕ × Chunk)) (ptr : ℕ) (c : Chunk) : List (ℕ × Chunk) :=
  match l with
  | [] => []
  | pc :: rest =>
    if pc.1 = ptr then (ptr, c) :: rest else pc :: assocSet rest ptr c

/-- Updates the chunk at `ptr` in the pool. -/
def Pool.set (p : Pool) (ptr : ℕ) (c : Chunk) : Pool :=
  { p with chunks := assocSet p.chunks ptr c }

/-- First free chunk whose capacity is at least `n` (`Pool.Alloc`'s scan of
`freeChunks`; Go iterates the map in unspecified order, the model scans in
insertion order — all concrete executions below have at most one candidate). -/
def Pool.pickFree (p : Pool) (n : ℕ) : Option (ℕ × Chunk) :=
  p.chunks.find? (fun pc => pc.2.free && n ≤ pc.2.cap)

/-- `Pool.Alloc(n)`: reuse a free chunk with `Cap ≥ n` (zero its `Size`, clear
`Free`, keep its payload bytes), otherwise append a fresh zeroed chunk at the
end of the backing object.  Returns the chunk's pointer. -/
def Pool.alloc (p : Pool) (n : ℕ) : Pool × ℕ :=
  match p.pickFree n with
  | some (pos, c) => (p.set pos { c with size := 0, free := false }, pos)
  | none =>
    let pos := p.fileEnd
    ({ chunks := p.chunks ++ [(pos, ⟨n, 0, false, 0⟩)],
       fileEnd := p.fileEnd + headerSize + n }, pos)

/-- `Chunk.Write(b)`: fail if `len(b) > Cap`; set `Size = len(b)`, rewrite the
header, write the payload right after the header (bytes beyond `len(b)` keep
their previous contents). -/
def Pool.write (p : Pool) (ptr : ℕ) (bs : Bytes) : Except Err Pool :=
  match p.find? ptr with
  | none => .error (.notFound ptr)
  | some c =>
    if c.cap < bs.len then .error .tooSmall
    else .ok (p.set ptr
      { c with
        size := bs.len,
        data := bs.val % 256 ^ bs.len + c.data / 256 ^ bs.len * 256 ^ bs.len })

/-- `Chunk.WriteAt(b, off)`: fail if the write exceeds `Cap`; grow `Size` only
when the write extends beyond it; write the payload at offset `off`. -/
def Pool.writeAt (p : Pool) (ptr : ℕ) (bs : Bytes) (off : ℕ) : Except Err Pool :=
  match p.find? ptr with
  | none => .error (.notFound ptr)
  | some c =>
    if c.cap < off + bs.len then .error .tooSmall
    else
      let newSize := if c.size < off + bs.len then off + bs.len else c.size
      .ok (p.set ptr
        { c with
          size := newSize,
          data := c.data % 256 ^ off + bs.val % 256 ^ bs.len * 256 ^ off +
            c.data / 256 ^ (off + bs.len) * 256 ^ (off + bs.len) })

/-- `Chunk.ReadAll`: read the first `Size` payload bytes. -/
def Pool.readAll (p : Pool) (ptr : ℕ) : Except Err Bytes :=
  match p.find? ptr with
  | none => .error (.notFound ptr)
  | some c => .ok ⟨c.size, c.data % 256 ^ c.size⟩

/-- `Chunk.Free`: set `Free = true`, rewrite the header.  The chunk stays in
the pool (no disk space is reclaimed). -/
def Pool.freeChunk (p : Pool) (ptr : ℕ) : Except Err Pool :=
  match p.find? ptr with
  | none => .error (.notFound ptr)
  | some c => .ok (p.set ptr { c with free := true })

/-- `Pool.AllocAndWrite(b)`: `Alloc(len(b))` then `Write`. -/
def Pool.allocAndWrite (p : Pool) (bs : Bytes) : Except Err (Pool × ℕ) :=
  let (p1, ptr) := p.alloc bs.len
  match p1.write ptr bs with
  | .error e => .error e
  | .ok p2 => .ok (p2, ptr)

/-- `Pool.Size`: number of chunks known to the pool. -/
def Pool.size (p : Pool) : ℕ := p.chunks.length

/-- Pool over an empty backing object, as `NewPool` yields on an empty
stream. -/
def emptyPool : Pool := ⟨[], 0⟩

end KV

namespace KV

/-! ## KV nodes (`container/kvnode.go`)

A KV node is a chunk holding four little-endian 8-byte `ChunkPtr`s
`{Prev, Next, Key, Value}`.  The in-memory `*KVNode` handle is modelled as a
record carrying the node's own chunk pointer and the four fields as last
read/written. -/

structure KVNode where
  ptr : ℕ
  prev : ℕ
  next : ℕ
  key : ℕ
  value : ℕ
deriving DecidableEq, Repr

/-- Serialisation of a node's fields (`binary.Write` of `kvnodeDTO`:
four little-endian 8-byte integers). -/
def encodeKVNode (prev next key value : ℕ) : Bytes :=
  ⟨sizeKVNode,
   prev % 2 ^ 64 + next % 2 ^ 64 * 256 ^ 8 + key % 2 ^ 64 * 256 ^ 16 +
     value % 2 ^ 64 * 256 ^ 24⟩

/-- Deserialisation (`binary.Read` of `kvnodeDTO`); errors when the buffer
holds fewer than 32 bytes. -/
def decodeKVNode (b : Bytes) : Except Err (ℕ × ℕ × ℕ × ℕ) :=
  if b.len < sizeKVNode then .error .shortRead
  else .ok (read64 b 0, read64 b 8, read64 b 16, read64 b 24)

/-- `KVNode.Write`: serialise the fields into the node's chunk.  (The
`n.chunk == nil` re-allocation branch of the Go code is unreachable from the
modelled callers, which all construct the node with a chunk in hand.) -/
def KVNode.write (p : Pool) (n : KVNode) : Except Err Pool :=
  p.write n.ptr (encodeKVNode n.prev n.next n.key n.value)

/-- `NewKVNode`: allocate a node chunk, write `{Prev = 0, Next = 0}` plus the
given key/value pointers. -/
def KVNode.new (p : Pool) (key value : ℕ) : Except Err (KVNode × Pool) :=
  let (p1, pos) := p.alloc sizeKVNode
  let n : KVNode := ⟨pos, 0, 0, key, value⟩
  match n.write p1 with
  | .error e => .error e
  | .ok p2 => .ok (n, p2)

/-- `NewKVNodeFromChunkPtr`: `Pool.Get` then `KVNode.Read`. -/
def KVNode.fromPtr (p : Pool) (ptr : ℕ) : Except Err KVNode :=
  match p.readAll ptr with
  | .error e => .error e
  | .ok b =>
    match decodeKVNode b with
    | .error e => .error e
    | .ok (pr, nx, k, v) => .ok ⟨ptr, pr, nx, k, v⟩

/-- `KVNode.KeyBytes`: dereference the key pointer and read the chunk. -/
def KVNode.keyBytes (p : Pool) (n : KVNode) : Except Err Bytes :=
  p.readAll n.key

/-- `KVNode.ValueBytes`: dereference the value pointer and read the chunk. -/
def KVNode.valueBytes (p : Pool) (n : KVNode) : Except Err Bytes :=
  p.readAll n.value

/-- `KVNode.SetValue`: look up the old value chunk, overwrite the node's
`Value` field, persist the node; returns the old value pointer. -/
def KVNode.setValue (p : Pool) (n : KVNode) (v : ℕ) : Except Err (ℕ × KVNode × Pool) :=
  match p.get n.value with
  | .error e => .error e
  | .ok _ =>
    let n2 : KVNode := { n with value := v }
    match n2.write p with
    | .error e => .error e
    | .ok p2 => .ok (n.value, n2, p2)

/-- `KVNode.Next`: `nil` when `Next = 0`, otherwise load the successor. -/
def KVNode.nextNode (p : Pool) (n : KVNode) : Except Err (Option KVNode) :=
  if n.next = 0 then .ok none
  else
    match KVNode.fromPtr p n.next with
    | .error e => .error e
    | .ok m => .ok (some m)

/-- `KVNode.Prev`: `nil` when `Prev = 0`, otherwise load the predecessor. -/
def KVNode.prevNode (p : Pool) (n : KVNode) : Except Err (Option KVNode) :=
  if n.prev = 0 then .ok none
  else
    match KVNode.fromPtr p n.prev with
    | .error e => .error e
    | .ok m => .ok (some m)

/-- `KVNode.ListSize`: walk `Next` links counting nodes. -/
def listSize (p : Pool) : KVNode → ℕ → Option (Except Err ℕ)
  | _, 0 => none
  | n, fuel + 1 =>
    if n.next = 0 then some (.ok 1)
    else
      match KVNode.fromPtr p n.next with
      | .error e => some (.error e)
      | .ok m =>
        match listSize p m fuel with
        | none => none
        | some (.error e) => some (.error e)
        | some (.ok s) => some (.ok (s + 1))

/-- `KVNode.Append`: walk to the tail, allocate a new node with
`Prev = tail, Next = 0`, persist it, then update and persist the old tail's
`Next`.  Returns the new node. -/
def KVNode.appendNode (p : Pool) : KVNode → ℕ → ℕ → ℕ → Option (Except Err (KVNode × Pool))
  | _, _, _, 0 => none
  | n, key, value, fuel + 1 =>
    if n.next = 0 then
      let (p1, pos) := p.alloc sizeKVNode
      let node : KVNode := ⟨pos, n.ptr, 0, key, value⟩
      match node.write p1 with
      | .error e => some (.error e)
      | .ok p2 =>
        match ({ n with next := pos } : KVNode).write p2 with
        | .error e => some (.error e)
        | .ok p3 => some (.ok (node, p3))
    else
      match KVNode.fromPtr p n.next with
      | .error e => some (.error e)
      | .ok m => KVNode.appendNode p m key value fuel

/-- Head walk of `KVNode.Delete`'s non-head branch:
`for head.prev != 0 { head = head.Prev() }`. -/
def walkHead (p : Pool) : KVNode → ℕ → Option (Except Err KVNode)
  | _, 0 => none
  | n, fuel + 1 =>
    if n.prev = 0 then some (.ok n)
    else
      match KVNode.prevNode p n with
      | .error e => some (.error e)
      | .ok none => some (.ok n)
      | .ok (some m) => walkHead p m fuel

/-- `KVNode.Delete`.  Head node (`Prev = 0`): free the node's chunk, clear the
successor's `Prev` when a successor exists, return the successor pointer
(`n.next`).  Otherwise: walk `Prev` links to the list head, set the
predecessor's `Next` to `n.next` and persist it, free the node's chunk, and
return the head's pointer.  The successor's `Prev` field is not touched on
this branch.  (The Go code discards the error of `n.Prev()` here and would
dereference `nil`; the model returns `none` for that unreachable panic.) -/
def KVNode.delete (p : Pool) (n : KVNode) (fuel : ℕ) : Option (Except Err (ℕ × Pool)) :=
  if n.prev = 0 then
    match p.freeChunk n.ptr with
    | .error e => some (.error e)
    | .ok p1 =>
      match KVNode.nextNode p1 n with
      | .error e => some (.error e)
      | .ok none => some (.ok (n.next, p1))
      | .ok (some nx) =>
        match ({ nx with prev := 0 } : KVNode).write p1 with
        | .error e => some (.error e)
        | .ok p2 => some (.ok (n.next, p2))
  else
    match walkHead p n fuel with
    | none => none
    | some (.error e) => some (.error e)
    | some (.ok head) =>
      match KVNode.prevNode p n with
      | .error _ => none
      | .ok none => none
      | .ok (some pv) =>
        match ({ pv with next := n.next } : KVNode).write p with
        | .error e => some (.error e)
        | .ok p1 =>
          match p1.freeChunk n.ptr with
          | .error e => some (.error e)
          | .ok p2 => some (.ok (head.ptr, p2))

/-- Loop of `KVNode.DeleteAll`: delete the head until the returned new head
pointer is `0`. -/
def deleteAllLoop (p : Pool) : KVNode → ℕ → Option (Except Err Pool)
  | _, 0 => none
  | n, fuel + 1 =>
    match KVNode.delete p n (fuel + 1) with
    | none => none
    | some (.error e) => some (.error e)
    | some (.ok (newHead, p1)) =>
      if newHead = 0 then some (.ok p1)
      else
        match KVNode.fromPtr p1 newHead with
        | .error e => some (.error e)
        | .ok m => deleteAllLoop p1 m fuel

/-- `KVNode.DeleteAll`: only callable on a head node (`Prev = 0`). -/
def KVNode.deleteAll (p : Pool) (n : KVNode) (fuel : ℕ) : Option (Except Err Pool) :=
  if n.prev ≠ 0 then some (.error .notHead)
  else deleteAllLoop p n fuel

/-- `findHashMapItem`: scan a node chain for the first node whose key bytes
equal `needle`; `nil` when the chain is exhausted. -/
def findItem (p : Pool) : Option KVNode → Bytes → ℕ → Option (Except Err (Option KVNode))
  | none, _, _ => some (.ok none)
  | some _, _, 0 => none
  | some n, needle, fuel + 1 =>
    match KVNode.keyBytes p n with
    | .error e => some (.error e)
    | .ok kb =>
      if kb = needle then some (.ok (some n))
      else
        match KVNode.nextNode p n with
        | .error e => some (.error e)
        | .ok m? => findItem p m? needle fuel

end KV

namespace KV

/-! ## Bucket arrays and the on-disk hash map
(`container/hashbuckets.go`, `container/hashmap.go`)

A bucket array is a fixed 128-entry table serialised into one chunk, each
entry being `{Type u8, Head i64}`.  `Type = 0` (`List`): `Head` is the head
`KVNode` of a doubly linked list, or `0` when empty.  `Type = 1` (`Buckets`):
`Head` points to a chunk holding a child bucket array.

The Go code holds decoded in-memory `hashBuckets` objects (the root array in
`HashMap.headBuckets`, the child array during a split) whose entries are
persisted by `hashBucket.Write` at every mutation, so they always coincide
with the decoded contents of their chunk; the model reads the array back from
its chunk at those points. -/

structure Entry where
  type : ℕ
  head : ℕ
deriving DecidableEq, Repr

/-- Serialisation of one bucket entry (`binary.Write` of `Type` then `Head`). -/
def encodeEntry (e : Entry) : Bytes :=
  ⟨sizeHashBucket, e.type % 256 + e.head % 2 ^ 64 * 256⟩

/-- Serialisation of a whole bucket array (`hashBuckets.WriteTo`). -/
def encodeBuckets (es : List Entry) : Bytes :=
  es.foldr (fun e acc => (encodeEntry e).append acc) .empty

/-- The 128 zeroed entries of a freshly created bucket array
(`newHashBuckets`: every entry `List` with `Head = 0`). -/
def emptyEntries : List Entry := List.replicate hashMapN ⟨0, 0⟩

/-- Deserialisation of a bucket array (`hashBuckets.ReadFrom`): 128 entries of
9 bytes; errors when the buffer length is not exactly 1152. -/
def decodeBuckets (b : Bytes) : Except Err (List Entry) :=
  if b.len = sizeHashBuckets then
    .ok ((List.range hashMapN).map fun i => ⟨b.byte (i * 9), read64 b (i * 9 + 1)⟩)
  else .error .badBucketsLen

/-- Loads and decodes the bucket array stored in the chunk at `ptr`. -/
def readBuckets (p : Pool) (ptr : ℕ) : Except Err (List Entry) :=
  match p.readAll ptr with
  | .error e => .error e
  | .ok b => decodeBuckets b

/-- `hashBucket.Write`: persist entry `idx` of the array chunk at `arrayPos`
(9 bytes at offset `idx * 9`). -/
def entryWrite (p : Pool) (arrayPos idx : ℕ) (e : Entry) : Except Err Pool :=
  p.writeAt arrayPos (encodeEntry e) (idx * 9)

/-- `hashBuckets.findBucket`: hash the key with the array's salt; descend
through `Buckets` entries, loading each child array from its chunk; stop at a
`List` entry.  Returns the leaf's location `(arrayPos, slot, entry)`. -/
def findBucket (p : Pool) : ℕ → List Entry → Bytes → ℕ → Option (Except Err (ℕ × ℕ × Entry))
  | _, _, _, 0 => none
  | arrayPos, es, key, fuel + 1 =>
    let i := slotOf arrayPos key
    let e := es.getD i ⟨0, 0⟩
    if e.type = 0 then some (.ok (arrayPos, i, e))
    else if e.type = 1 then
      match readBuckets p e.head with
      | .error er => some (.error er)
      | .ok es2 => findBucket p e.head es2 key fuel
    else some (.error .badBucketType)

/-- Re-insertion loop of the split in `hashBucket.Append`: for every node of
the old list, find its bucket in the child array (salted with the child
chunk's position) and append it there, reusing the node's existing key and
value chunk pointers.  `recAppend` is the recursive `Append` at smaller
fuel. -/
def splitLoop (recAppend : Pool → ℕ → ℕ → Entry → Bytes → ℕ → ℕ → Option (Except Err Pool))
    (childPos : ℕ) : Pool → Option KVNode → ℕ → Option (Except Err Pool)
  | p, none, _ => some (.ok p)
  | _, some _, 0 => none
  | p, some node, fuel + 1 =>
    match KVNode.keyBytes p node with
    | .error e => some (.error e)
    | .ok nk =>
      match readBuckets p childPos with
      | .error e => some (.error e)
      | .ok es =>
        match findBucket p childPos es nk (fuel + 1) with
        | none => none
        | some (.error e) => some (.error e)
        | some (.ok (ap2, i2, e2)) =>
          match recAppend p ap2 i2 e2 nk node.key node.value with
          | none => none
          | some (.error e) => some (.error e)
          | some (.ok p1) =>
            match KVNode.nextNode p1 node with
            | .error e => some (.error e)
            | .ok m? => splitLoop recAppend childPos p1 m? fuel

/-- `hashBucket.Append(keyBytes, key, value)` on the entry at
`(arrayPos, idx)`.  Refuses non-`List` entries.  Empty list: create the head
node and persist the entry.  List shorter than `MaxListLen = 32`: append to
the tail.  Otherwise split: allocate a child 128-entry array chunk, write it
zeroed, re-append every node of the old list into the child array
(recursively subject to the same rule), append the new pair, flip the parent
entry to `Buckets` with `Head` = child chunk, persist it, then `DeleteAll`
the old list. -/
def bappend : ℕ → Pool → ℕ → ℕ → Entry → Bytes → ℕ → ℕ → Option (Except Err Pool)
  | 0, _, _, _, _, _, _, _ => none
  | fuel + 1, p, arrayPos, idx, b, keyBytes, key, value =>
    if b.type ≠ 0 then some (.error .cannotAppend)
    else if b.head = 0 then
      match KVNode.new p key value with
      | .error e => some (.error e)
      | .ok (head, p1) =>
        match entryWrite p1 arrayPos idx { b with head := head.ptr } with
        | .error e => some (.error e)
        | .ok p2 => some (.ok p2)
    else
      match KVNode.fromPtr p b.head with
      | .error e => some (.error e)
      | .ok head =>
        match listSize p head (fuel + 1) with
        | none => none
        | some (.error e) => some (.error e)
        | some (.ok size) =>
          if size < hashMapMaxList then
            match KVNode.appendNode p head key value (fuel + 1) with
            | none => none
            | some (.error e) => some (.error e)
            | some (.ok (_, p1)) => some (.ok p1)
          else
            let (p1, childPos) := p.alloc sizeHashBuckets
            match p1.write childPos (encodeBuckets emptyEntries) with
            | .error e => some (.error e)
            | .ok p2 =>
              match splitLoop (bappend fuel) childPos p2 (some head) (fuel + 1) with
              | none => none
              | some (.error e) => some (.error e)
              | some (.ok p3) =>
                match readBuckets p3 childPos with
                | .error e => some (.error e)
                | .ok es =>
                  match findBucket p3 childPos es keyBytes (fuel + 1) with
                  | none => none
                  | some (.error e) => some (.error e)
                  | some (.ok (ap2, i2, e2)) =>
                    match bappend fuel p3 ap2 i2 e2 keyBytes key value with
                    | none => none
                    | some (.error e) => some (.error e)
                    | some (.ok p4) =>
                      match entryWrite p4 arrayPos idx { b with type := 1, head := childPos } with
                      | .error e => some (.error e)
                      | .ok p5 => KVNode.deleteAll p5 head (fuel + 1)

/-- `hashBucket.Upsert(key, value)` on the leaf entry at `(arrayPos, idx)`:
empty list — allocate a key chunk and append; key present — `SetValue` and
free the old value chunk; key absent — allocate a key chunk and append. -/
def bupsert (p : Pool) (arrayPos idx : ℕ) (b : Entry) (key : Bytes) (value : ℕ)
    (fuel : ℕ) : Option (Except Err Pool) :=
  if b.head = 0 then
    match p.allocAndWrite key with
    | .error e => some (.error e)
    | .ok (p1, kc) => bappend fuel p1 arrayPos idx b key kc value
  else
    match KVNode.fromPtr p b.head with
    | .error e => some (.error e)
    | .ok head =>
      match findItem p (some head) key fuel with
      | none => none
      | some (.error e) => some (.error e)
      | some (.ok none) =>
        match p.allocAndWrite key with
        | .error e => some (.error e)
        | .ok (p1, kc) => bappend fuel p1 arrayPos idx b key kc value
      | some (.ok (some node)) =>
        match node.setValue p value with
        | .error e => some (.error e)
        | .ok (old, _, p1) =>
          match p1.get old with
          | .error e => some (.error e)
          | .ok _ =>
            match p1.freeChunk old with
            | .error e => some (.error e)
            | .ok p2 => some (.ok p2)

/-- `NewHashMap` over an already-scanned pool: empty pool — allocate the root
bucket array chunk and write it zeroed; non-empty pool — load exactly the
chunk at pointer `0` and decode it as the root array.  Returns the root
chunk's pointer. -/
def newHashMap (p : Pool) : Except Err (Pool × ℕ) :=
  if p.size = 0 then
    let (p1, pos) := p.alloc sizeHashBuckets
    match p1.write pos (encodeBuckets emptyEntries) with
    | .error e => .error e
    | .ok p2 => .ok (p2, pos)
  else
    match p.get 0 with
    | .error e => .error e
    | .ok c =>
      match decodeBuckets ⟨c.size, c.data % 256 ^ c.size⟩ with
      | .error e => .error e
      | .ok _ => .ok (p, 0)

/-- `HashMap.Store(key, value)`: allocate and write the value chunk first,
then upsert `(key, valuePtr)` starting from the root bucket array (held in
memory by the Go code, always equal to the contents of chunk `0`). -/
def hmStore (p : Pool) (key value : Bytes) (fuel : ℕ) : Option (Except Err Pool) :=
  match p.allocAndWrite value with
  | .error e => some (.error e)
  | .ok (p1, vc) =>
    match readBuckets p1 0 with
    | .error e => some (.error e)
    | .ok root =>
      match findBucket p1 0 root key fuel with
      | none => none
      | some (.error e) => some (.error e)
      | some (.ok (ap, i, e)) => bupsert p1 ap i e key vc fuel

/-- `HashMap.Load(key)`: walk to the leaf list, scan it for the key, read the
value chunk; `(nil, false)` when absent. -/
def hmLoad (p : Pool) (key : Bytes) (fuel : ℕ) :
    Option (Except Err (Option Bytes × Bool)) :=
  match readBuckets p 0 with
  | .error e => some (.error e)
  | .ok root =>
    match findBucket p 0 root key fuel with
    | none => none
    | some (.error e) => some (.error e)
    | some (.ok (_, _, e)) =>
      match (if e.head = 0 then .ok none
             else
               match KVNode.fromPtr p e.head with
               | .error er => .error er
               | .ok n => .ok (some n) : Except Err (Option KVNode)) with
      | .error er => some (.error er)
      | .ok head? =>
        match findItem p head? key fuel with
        | none => none
        | some (.error er) => some (.error er)
        | some (.ok none) => some (.ok (none, false))
        | some (.ok (some node)) =>
          match node.valueBytes p with
          | .error er => some (.error er)
          | .ok b => some (.ok (some b, true))

/-- `HashMap.Delete(key)`: walk to the leaf list; not-found error on an empty
list or a missing key; otherwise `KVNode.Delete` the node, store the returned
new head into the entry and persist it. -/
def hmDelete (p : Pool) (key : Bytes) (fuel : ℕ) : Option (Except Err Pool) :=
  match readBuckets p 0 with
  | .error e => some (.error e)
  | .ok root =>
    match findBucket p 0 root key fuel with
    | none => none
    | some (.error e) => some (.error e)
    | some (.ok (ap, i, e)) =>
      if e.head = 0 then some (.error .keyNotFound)
      else
        match KVNode.fromPtr p e.head with
        | .error er => some (.error er)
        | .ok head =>
          match findItem p (some head) key fuel with
          | none => none
          | some (.error er) => some (.error er)
          | some (.ok none) => some (.error .keyNotFound)
          | some (.ok (some node)) =>
            match node.delete p fuel with
            | none => none
            | some (.error er) => some (.error er)
            | some (.ok (newHead, p1)) =>
              match entryWrite p1 ap i { e with head := newHead } with
              | .error er => some (.error er)
              | .ok p2 => some (.ok p2)

/-- Hash-map operations, for describing operation sequences. -/
inductive HOp where
  | store (k v : Bytes)
  | del (k : Bytes)
deriving DecidableEq, Repr

/-- Runs a sequence of hash-map operations left to right. -/
def runOps (p : Pool) : List HOp → ℕ → Option (Except Err Pool)
  | [], _ => some (.ok p)
  | op :: rest, fuel =>
    match (match op with
           | .store k v => hmStore p k v fuel
           | .del k => hmDelete p k fuel) with
    | none => none
    | some (.error e) => some (.error e)
    | some (.ok p1) => runOps p1 rest fuel

end KV

namespace KV

/-! ## Block file and objects (`block/db.go`, `block/blockmeta.go`,
`block/object.go`)

A block header is `End u32, Next u32` (8 bytes).  An object is an ordered
chain of blocks; its in-memory state is the resolved list of block
descriptors plus the cursor `(posBlockIdx, posBlockOff)` and the running
`offset`.  Block payload bytes are irrelevant to the claims below and are
not modelled; a block is its header.

`sub32` is Go's `uint32` subtraction (wrapping), used exactly where the
source subtracts `uint32`s. -/

/-- Go `uint32` subtraction, wrapping (intended for `a, b < 2 ^ 32`). -/
def sub32 (a b : ℕ) : ℕ := (a + 2 ^ 32 - b) % 2 ^ 32

/-- Go `uint32(x)` conversion of an `int64`. -/
def u32ofInt (i : ℤ) : ℕ := (i % 2 ^ 32).toNat

/-- Size of a serialised block header (`BlockMeta.Size`): `End u32 + Next u32`. -/
def blockMetaSize : ℕ := 8

/-- One block descriptor as the object layer holds it: the block's index and
its header fields.  (`pos` is derivable from `idx` and is omitted.) -/
structure BlockMeta where
  idx : ℕ
  End : ℕ
  Next : ℕ
deriving DecidableEq, Repr

/-- In-memory object state (`block.Object`): resolved block chain plus
cursor. -/
structure Obj where
  blocks : List BlockMeta
  posBlockIdx : ℕ
  posBlockOff : ℕ
  offset : ℤ
deriving DecidableEq, Repr

/-- Logical size of an object: the sum of its blocks' `End`s
(`Object.size`). -/
def objSize (o : Obj) : ℤ := o.blocks.foldl (fun s b => s + (b.End : ℤ)) 0

/-- `Object.seekFromRelativeBack`: move the cursor `offset` bytes backwards,
block by block.  On a negative `offset` the Go code converts it with
`uint32(offset)`, wrapping — modelled faithfully by `u32ofInt`.  Errors with
`io.EOF` at the start of the object. -/
def seekBack : Obj → ℤ → ℕ → Option (Except Err ℤ × Obj)
  | _, _, 0 => none
  | o, offset, fuel + 1 =>
    if offset = 0 then some (.ok o.offset, o)
    else if o.posBlockOff = 0 ∧ o.posBlockIdx = 0 then some (.error .eof, o)
    else
      let canRead := if (o.posBlockOff : ℤ) > offset then u32ofInt offset else o.posBlockOff
      let o1 : Obj :=
        { o with
          offset := o.offset - canRead,
          posBlockOff := sub32 o.posBlockOff canRead }
      let offset1 := offset - canRead
      if o1.posBlockOff = 0 ∧ o1.posBlockIdx ≠ 0 then
        match o1.blocks.get? (o1.posBlockIdx - 1) with
        | none => none
        | some bm =>
          let o2 : Obj := { o1 with posBlockIdx := o1.posBlockIdx - 1, posBlockOff := bm.End }
          if offset1 = 0 then some (.ok o2.offset, o2) else seekBack o2 offset1 fuel
      else
        if offset1 = 0 then some (.ok o1.offset, o1) else seekBack o1 offset1 fuel

/-- `Object.seekFromRelative`: negative offsets are delegated to the backward
walk; positive offsets move the cursor forward block by block, advancing to
the next block when the current block's `End` is consumed and a successor
exists.  Errors with `io.EOF` when the cursor sits at the end of the tail
block with distance still to travel. -/
def seekForward : Obj → ℤ → ℕ → Option (Except Err ℤ × Obj)
  | _, _, 0 => none
  | o, offset, fuel + 1 =>
    if offset < 0 then seekBack o (-offset) (fuel + 1)
    else
      match o.blocks.get? o.posBlockIdx with
      | none => none
      | some bm =>
        if offset = 0 then some (.ok o.offset, o)
        else if o.posBlockOff = bm.End then some (.error .eof, o)
        else
          let canRead0 := sub32 bm.End o.posBlockOff
          let canRead := if (canRead0 : ℤ) > offset then u32ofInt offset else canRead0
          let o1 : Obj :=
            { o with
              offset := o.offset + canRead,
              posBlockOff := o.posBlockOff + canRead }
          let offset1 := offset - canRead
          if o1.posBlockOff = bm.End ∧ bm.Next ≠ 0 then
            let o2 : Obj := { o1 with posBlockIdx := o1.posBlockIdx + 1, posBlockOff := 0 }
            if offset1 = 0 then some (.ok o2.offset, o2) else seekForward o2 offset1 fuel
          else
            if offset1 = 0 then some (.ok o1.offset, o1) else seekForward o1 offset1 fuel

/-- `Object.seekFromStart`: reset the cursor, then walk forward. -/
def seekFromStart (o : Obj) (offset : ℤ) (fuel : ℕ) : Option (Except Err ℤ × Obj) :=
  seekForward { o with offset := 0, posBlockIdx := 0, posBlockOff := 0 } offset fuel

/-- `Object.seekFromEnd`: place the cursor at `(lastIndex, last.End)` with
`offset = size`, then walk **backwards** by `offset`. -/
def seekFromEnd (o : Obj) (offset : ℤ) (fuel : ℕ) : Option (Except Err ℤ × Obj) :=
  match o.blocks.get? (o.blocks.length - 1) with
  | none => none
  | some last =>
    seekBack
      { o with
        offset := objSize o,
        posBlockIdx := o.blocks.length - 1,
        posBlockOff := last.End } offset fuel

/-- `Object.seek`: dispatch on `whence` (`0` start, `1` current, `2` end;
anything else is an "unknown whence" error). -/
def Obj.seek (o : Obj) (offset : ℤ) (whence : ℕ) (fuel : ℕ) :
    Option (Except Err ℤ × Obj) :=
  match whence with
  | 0 => seekFromStart o offset fuel
  | 1 => seekForward o offset fuel
  | 2 => seekFromEnd o offset fuel
  | _ => some (.error .unknownWhence, o)

/-! ### The block DB state used by `Object.write` / `Object.alloc`
(`block/db.go`: `grow`, the free list; `block/object.go`: `write`, `alloc`). -/

structure DBMeta where
  blockSize : ℕ
  blockCount : ℕ
  firstFreeBlock : ℕ
deriving DecidableEq, Repr

/-- Block-DB state: the header fields plus every block's on-disk header
`(End, Next)`, indexed by block index. -/
structure DBState where
  meta : DBMeta
  disk : List (ℕ × ℕ)
deriving DecidableEq, Repr

/-- `BlockMeta.WriteNext`: persist a block's `Next` field. -/
def diskSetNext (db : DBState) (idx v : ℕ) : DBState :=
  { db with
    disk :=
      match db.disk.get? idx with
      | none => db.disk
      | some (e, _) => db.disk.set idx (e, v) }

/-- `BlockMeta.WriteEnd`: persist a block's `End` field. -/
def diskSetEnd (db : DBState) (idx v : ℕ) : DBState :=
  { db with
    disk :=
      match db.disk.get? idx with
      | none => db.disk
      | some (_, nx) => db.disk.set idx (v, nx) }

/-- `BlockDB.grow(n, false)`: extend the file by `n` blocks whose headers
chain each new block to the next (the last new block's `Next` is `0`), and
persist the increased `BlockCount`.  The `free = true` continuation (splicing
onto the free list, used only by the public `Grow`) is not needed by any
claim and is not modelled. -/
def growRaw (db : DBState) (n : ℕ) : DBState × List BlockMeta :=
  let start := db.meta.blockCount
  let mm := (List.range n).map fun i =>
    (⟨start + i, 0, if i = n - 1 then 0 else start + i + 1⟩ : BlockMeta)
  ({ meta := { db.meta with blockCount := start + n },
     disk := db.disk ++ mm.map fun b => (0, b.Next) }, mm)

/-- Free-list walk of `Object.alloc`: pop up to `n` blocks off the chain
starting at `next`, reading each header from disk; returns the collected
blocks and the successor of the last one taken. -/
def collectFree (db : DBState) : ℕ → ℕ → ℕ → Option (Except Err (List BlockMeta × ℕ))
  | next, n, 0 => if n = 0 ∨ next = 0 then some (.ok ([], next)) else none
  | next, n, fuel + 1 =>
    if n = 0 ∨ next = 0 then some (.ok ([], next))
    else
      match db.disk.get? next with
      | none => some (.error .eof)
      | some (e, nx) =>
        match collectFree db nx (n - 1) fuel with
        | none => none
        | some (.error er) => some (.error er)
        | some (.ok (rest, fin)) => some (.ok (⟨next, e, nx⟩ :: rest, fin))

/-- `Object.alloc(n)`: take blocks from the free list first — update
`FirstFreeBlock`, zero the last taken block's `Next` on disk, point the
object's old tail's `Next` at the first taken block on disk, append the taken
blocks to the object — then grow the file for the remainder and splice the
grown run on in the same way. -/
def objAlloc (db : DBState) (o : Obj) (n : ℕ) (fuel : ℕ) :
    Option (Except Err (DBState × Obj)) :=
  match collectFree db db.meta.firstFreeBlock n fuel with
  | none => none
  | some (.error e) => some (.error e)
  | some (.ok (newFree, next)) =>
    match newFree with
    | [] =>
      let (db1, grown) := growRaw db n
      match o.blocks.getLast? with
      | none =>
        match grown.head? with
        | none => none
        | some _ => some (.ok (db1, { o with blocks := o.blocks ++ grown }))
      | some tail =>
        match grown.head? with
        | none => none
        | some g0 =>
          let db2 := diskSetNext db1 tail.idx g0.idx
          let o1 : Obj :=
            { o with
              blocks := o.blocks.dropLast ++ [{ tail with Next := g0.idx }] ++ grown }
          some (.ok (db2, o1))
    | f0 :: fr =>
      let db1 : DBState := { db with meta := { db.meta with firstFreeBlock := next } }
      let lastTaken := (f0 :: fr).getLast (by simp)
      let taken := (f0 :: fr).dropLast ++ [{ lastTaken with Next := 0 }]
      let db2 := diskSetNext db1 lastTaken.idx 0
      match o.blocks.getLast? with
      | none => none
      | some tail =>
        let db3 := diskSetNext db2 tail.idx f0.idx
        let o1 : Obj :=
          { o with
            blocks := o.blocks.dropLast ++ [{ tail with Next := f0.idx }] ++ taken }
        let remaining := n - (f0 :: fr).length
        if remaining = 0 then some (.ok (db3, o1))
        else
          let (db4, grown) := growRaw db3 remaining
          match o1.blocks.getLast? with
          | none => none
          | some tail1 =>
            match grown.head? with
            | none => none
            | some g0 =>
              let db5 := diskSetNext db4 tail1.idx g0.idx
              let o2 : Obj :=
                { o1 with
                  blocks := o1.blocks.dropLast ++ [{ tail1 with Next := g0.idx }] ++ grown }
              some (.ok (db5, o2))

/-- `Object.write`, with the payload abstracted to its length (the block
layer's control flow depends only on `len(p)`; payload bytes are not
modelled).  The last component of the result is instrumentation: the list of
`(remaining bytes, blocks requested)` pairs, one per call to `alloc`, in
order.  Writes into the current block up to the payload capacity
`BlockSize - 8`; persists a grown `End`; when the block is full and its
`Next` is `0`, allocates `max(1, remaining / BlockSize)` blocks; advances to
the next block and recurses. -/
def objWrite : ℕ → DBState → Obj → ℕ → Option (Except Err (DBState × Obj × ℕ × List (ℕ × ℕ)))
  | 0, _, _, _ => none
  | fuel + 1, db, o, plen =>
    match o.blocks.get? o.posBlockIdx with
    | none => none
    | some bm =>
      let canWrite := min (sub32 (sub32 db.meta.blockSize blockMetaSize) o.posBlockOff) plen
      let o1 : Obj :=
        { o with
          offset := o.offset + canWrite,
          posBlockOff := o.posBlockOff + canWrite }
      let bm1 : BlockMeta := if bm.End < o1.posBlockOff then { bm with End := o1.posBlockOff } else bm
      let db1 := if bm.End < o1.posBlockOff then diskSetEnd db bm.idx o1.posBlockOff else db
      let o2 : Obj :=
        if bm.End < o1.posBlockOff then { o1 with blocks := o1.blocks.set o1.posBlockIdx bm1 }
        else o1
      let rem := plen - canWrite
      if rem = 0 then some (.ok (db1, o2, canWrite, []))
      else
        if o2.posBlockOff = sub32 db1.meta.blockSize blockMetaSize then
          if bm1.Next = 0 then
            let nb0 := rem / db1.meta.blockSize
            let nb := if nb0 = 0 then 1 else nb0
            match objAlloc db1 o2 nb (fuel + 1) with
            | none => none
            | some (.error e) => some (.error e)
            | some (.ok (db2, o3)) =>
              let o4 : Obj := { o3 with posBlockIdx := o3.posBlockIdx + 1, posBlockOff := 0 }
              match objWrite fuel db2 o4 rem with
              | none => none
              | some (.error e) => some (.error e)
              | some (.ok (db3, o5, n2, log)) =>
                some (.ok (db3, o5, canWrite + n2, (rem, nb) :: log))
          else
            let o4 : Obj := { o2 with posBlockIdx := o2.posBlockIdx + 1, posBlockOff := 0 }
            match objWrite fuel db1 o4 rem with
            | none => none
            | some (.error e) => some (.error e)
            | some (.ok (db3, o5, n2, log)) => some (.ok (db3, o5, canWrite + n2, log))
        else
          match objWrite fuel db1 o2 rem with
          | none => none
          | some (.error e) => some (.error e)
          | some (.ok (db3, o5, n2, log)) => some (.ok (db3, o5, canWrite + n2, log))

end KV

namespace KV

/-! ## The store facade (`kvstore.go`)

Only the parts the claims touch are modelled.  A store's state, as far as
`Get` after `New` is concerned, is its in-memory `buckets` map from name to
bucket hash-map (each bucket hash-map is a chunk pool).  `New` initialises
`buckets` to the empty map — whether the file is fresh or reopened — and no
code path of `New` repopulates it from the file; only `writeTx.write` ever
inserts into it, under the plain bucket name.  `readTx.Get` looks buckets up
under `bucketPath(name) = "bucket/" + name`.  The `bucketsMap` directory
hash-map (`"objects"`) is updated by `writeTx.write` but never consulted by
any `Get`/`List` path, and is omitted. -/

/-- Errors of the store facade. -/
inductive StoreErr where
  /-- `ErrBucketNotFound` -/
  | bucketNotFound
  /-- `ErrKeyNotFound` -/
  | keyNotFound
  /-- an error bubbling up from the container layer -/
  | hm (e : Err)
deriving DecidableEq, Repr

/-- `bucketPath`: `path.Join("bucket", name)` (for slash-free, dot-free
names this is `"bucket/" + name`). -/
def bucketPath (name : String) : String := "bucket/" ++ name

/-- The store's in-memory bucket-map state. -/
structure StoreState where
  buckets : List (String × Pool)
deriving Repr

/-- The `buckets` map of a freshly constructed store (`New`): empty. `New`
builds `store{ buckets: map[string]*container.HashMap{}, ... }` and neither
`block.Create`/`block.Open` nor `container.NewHashMap` add anything to it,
for a fresh file and for a reopened one alike. -/
def storeNew : StoreState := ⟨[]⟩

/-- `readTx.Get` (also the read path of `store.Get`): look the bucket up
under `bucketPath(bucket)` in the in-memory map — `ErrBucketNotFound` when
absent — then `Load` the key; `ErrKeyNotFound` when not found.  (JSON
unmarshalling of the returned bytes is out of scope.) -/
def readTxGet (st : StoreState) (bucket : String) (key : Bytes) (fuel : ℕ) :
    Option (Except StoreErr Bytes) :=
  match st.buckets.lookup (bucketPath bucket) with
  | none => some (.error .bucketNotFound)
  | some m =>
    match hmLoad m key fuel with
    | none => none
    | some (.error e) => some (.error (.hm e))
    | some (.ok (_, false)) => some (.error .keyNotFound)
    | some (.ok (some b, true)) => some (.ok b)
    | some (.ok (none, true)) => some (.ok .empty)

/-- `writeTx.write(bucket, key, payload)` (the commit path of a pending
`Set`): look the bucket up under the **plain** name; when absent, create the
object `bucket/<name>` in the block DB (fresh, hence an empty pool), build a
hash map over it, and insert it under the plain name; store the pair. -/
def writeTxWrite (st : StoreState) (bucket : String) (key payload : Bytes) (fuel : ℕ) :
    Option (Except StoreErr StoreState) :=
  match st.buckets.lookup bucket with
  | some m =>
    match hmStore m key payload fuel with
    | none => none
    | some (.error e) => some (.error (.hm e))
    | some (.ok m1) =>
      some (.ok ⟨st.buckets.map fun bm => if bm.1 = bucket then (bucket, m1) else bm⟩)
  | none =>
    match newHashMap emptyPool with
    | .error e => some (.error (.hm e))
    | .ok (m0, _) =>
      match hmStore m0 key payload fuel with
      | none => none
      | some (.error e) => some (.error (.hm e))
      | some (.ok m1) => some (.ok ⟨st.buckets ++ [(bucket, m1)]⟩)

end KV

deriving instance DecidableEq for Except

namespace KV

/-! ## Concrete scenario states

The corruption scenario exercised by several claims below.  Four 2-byte keys
that collide into slot 0 of the root array (salt `"0"`), checked against
FNV-1a by `decide` in the theorems section:
`kA = [34, 119]`, `kB = [35, 100]`, `kC = [36, 81]`, `k1 = [37, 62]`.

Sequence (each step's free-chunk reuse has a unique candidate):
store `kA kB kC` (list `a → b → c` in slot 0); delete `kB` (middle node:
`c.Prev` is left dangling at the freed node chunk `b` at pointer 1244);
store `k1` with a crafted 32-byte value that is allocated into the freed
chunk 1244; delete `kC` (the head walk runs through the dangling `Prev` into
the value bytes at 1244, fabricating a node, and rewrites the slot head to
1244); store `k1` again (frees 1244, now the slot head is a free chunk);
store `kA` with a crafted value `c2V3` (allocated into 1244; the key scan
then matches the fabricated node at 1244 — its key field points at `kA`'s
key chunk 1171 — and `SetValue` rewrites 1244, the very chunk holding the
just-stored value).  Chunk layout (from the allocation order):
`kA`'s value chunk 1161, key chunk 1171, node 1182; `kB`'s node 1244. -/

/-- Extracts the pool of a successful run (total helper for building concrete
states; every use below is paired with an equation asserting the run really
succeeded). -/
def okPool (r : Option (Except Err Pool)) : Pool :=
  match r with
  | some (.ok p) => p
  | _ => emptyPool

def c2KA : Bytes := .ofList [34, 119]

def c2KB : Bytes := .ofList [35, 100]

def c2KC : Bytes := .ofList [36, 81]

def c2K1 : Bytes := .ofList [37, 62]

def c2VA : Bytes := .ofList [170]

/-- Crafted value stored under `c2K1`: decoded as a KV node it reads
`Prev = 0, Next = 0, Key = 1171 (kA's key chunk), Value = 1161 (kA's value
chunk)`. -/
def c2V1 : Bytes := ⟨32, 1171 * 256 ^ 16 + 1161 * 256 ^ 24⟩

/-- Crafted value stored under `c2KA` in the final step: decoded as a KV
node it reads `Prev = 0, Next = 1182 (kA's original node), Key = 1171,
Value = 1161`. -/
def c2V3 : Bytes := ⟨32, 1182 * 256 ^ 8 + 1171 * 256 ^ 16 + 1161 * 256 ^ 24⟩

/-- The root bucket array of a fresh hash map over an empty pool. -/
def hm0 : Pool := okPool (some ((newHashMap emptyPool).map (·.1)))

def c2PreScript : List HOp :=
  [.store c2KA c2VA, .store c2KB (.ofList [187]), .store c2KC (.ofList [204]),
   .del c2KB, .store c2K1 c2V1, .del c2KC, .store c2K1 (.ofList [85])]

/-- The corrupted-but-reachable state right before the final store. -/
def c2Pre : Pool := okPool (runOps hm0 c2PreScript 100)

/-- The state after the final `Store(kA, c2V3)`. -/
def c2Post : Pool := okPool (hmStore c2Pre c2KA c2V3 100)

/-- What `Load(kA)` actually returns after that store: the node DTO that
`SetValue` wrote over the value chunk — its `Value` field now `1244`
instead of `1161`. -/
def c2W : Bytes := ⟨32, 1182 * 256 ^ 8 + 1171 * 256 ^ 16 + 1244 * 256 ^ 24⟩

/-- The state after `Delete(kA)` on `c2Post` (claim C7): the delete removes
the fabricated node at 1244 and promotes `Next = 1182` — `kA`'s original
node, still holding its old value pointer — back to the slot head. -/
def c7Deleted : Pool := okPool (hmDelete c2Post c2KA 100)

/-- Variant for claim C10: the crafted value's `Value` field is `0`, so the
fabricated node's old-value pointer is the root array chunk itself. -/
def c10V1 : Bytes := ⟨32, 1171 * 256 ^ 16⟩

def c10Script : List HOp :=
  [.store c2KA c2VA, .store c2KB (.ofList [187]), .store c2KC (.ofList [204]),
   .del c2KB, .store c2K1 c10V1, .del c2KC]

def c10Pre : Pool := okPool (runOps hm0 c10Script 100)

/-- After `Store(kA, [17])` from `c10Pre`: the upsert matches the fabricated
node whose `Value` field is `0` and frees the "old value chunk" — chunk 0,
the root bucket array. -/
def c10Post : Pool := okPool (hmStore c10Pre c2KA (.ofList [17]) 100)

/-- Builds a three-node KV list (keys `A`, `B`, `C`, values `1`, `2`, `3`)
in a fresh pool via `NewKVNode` and two `Append`s (claim C3's
counterexample).  Chunk layout: key/value chunks at 0, 10, 20, 30, 40, 50;
nodes at 60, 101, 142. -/
def c3Built : Option (Pool × KVNode × KVNode × KVNode) :=
  match emptyPool.allocAndWrite (.ofList [65]) with
  | .error _ => none
  | .ok (p1, ka) =>
    match p1.allocAndWrite (.ofList [49]) with
    | .error _ => none
    | .ok (p2, va) =>
      match p2.allocAndWrite (.ofList [66]) with
      | .error _ => none
      | .ok (p3, kb) =>
        match p3.allocAndWrite (.ofList [50]) with
        | .error _ => none
        | .ok (p4, vb) =>
          match p4.allocAndWrite (.ofList [67]) with
          | .error _ => none
          | .ok (p5, kc) =>
            match p5.allocAndWrite (.ofList [51]) with
            | .error _ => none
            | .ok (p6, vc) =>
              match KVNode.new p6 ka va with
              | .error _ => none
              | .ok (na, p7) =>
                match KVNode.appendNode p7 na kb vb 10 with
                | none | some (.error _) => none
                | some (.ok (_, p8)) =>
                  match KVNode.fromPtr p8 na.ptr with
                  | .error _ => none
                  | .ok na1 =>
                  match KVNode.appendNode p8 na1 kc vc 10 with
                  | none | some (.error _) => none
                  | some (.ok (_, p9)) =>
                    match KVNode.fromPtr p9 60, KVNode.fromPtr p9 101,
                        KVNode.fromPtr p9 142 with
                    | .ok a, .ok b, .ok c => some (p9, a, b, c)
                    | _, _, _ => none

def c3Pool : Pool :=
  match c3Built with
  | some (p, _, _, _) => p
  | none => emptyPool

/-- The middle node of the three-node list, as loaded from the pool. -/
def c3NodeB : KVNode := ⟨101, 60, 142, 20, 30⟩

/-- Pool state after deleting the middle node. -/
def c3After : Pool :=
  match KVNode.delete c3Pool c3NodeB 100 with
  | some (.ok (_, p)) => p
  | _ => emptyPool

/-- A single-block object of logical size 26 with the cursor at the start
(claim C4's counterexample: the test object holding the alphabet). -/
def c4Obj : Obj := ⟨[⟨1, 26, 0⟩], 0, 0, 0⟩

/-- Block DB for claim C5's counterexample: `BlockSize = 16` (payload 8 per
block), two blocks, an empty free list; the object owns block 1, empty. -/
def c5DB : DBState := ⟨⟨16, 2, 0⟩, [(0, 0), (0, 0)]⟩

def c5Obj : Obj := ⟨[⟨1, 0, 0⟩], 0, 0, 0⟩

/-- Block DB with free blocks `3 → 4` for the witness of the amended C5
claim. -/
def c5DBFree : DBState := ⟨⟨16, 5, 3⟩, [(0, 0), (0, 0), (0, 0), (0, 4), (0, 0)]⟩

end KV

namespace KV

/-! ## Scenario for claim C6: a split that loses a previously stored key

Same corruption prologue as above, preceded by 32 stores whose keys all hash
into slot 1 of the root array.  At the end of the prologue the slot-0 head is
the **free** chunk 3580 (the fabricated node through which `kA` is still
loadable).  The 33rd store into slot 1 then triggers the split; the first
node re-appended into the child array is allocated into the free chunk 3580,
overwriting the fabricated node — afterwards `Load(kA)` comes back
`not found` although `kA` was stored and loadable before the split and the
split itself only concerned slot 1. -/

def c6KA : Bytes := .ofList [34, 119]

def c6K33 : Bytes := .ofList [90, 90, 90, 90, 90, 90, 90, 90, 90, 90, 90, 90, 90, 90, 90, 90, 90, 90, 90, 90, 90, 90, 90, 90, 90, 90, 90, 90, 90, 90, 48, 48, 48, 49, 54, 53]

def c6V33 : Bytes := .ofList [87, 87, 87, 87, 87, 87, 87, 87, 87, 87, 87, 87, 87, 87, 87, 87, 87, 87, 87, 87, 87, 87, 87, 87, 87, 87, 87, 87, 87, 87, 87, 87, 87, 87, 87, 87, 87, 87, 87, 87]

/-- Crafted value of the prologue (`Prev = 0, Next = 0, Key = 3507` — `kA`'s
key chunk — `Value = 3497` — `kA`'s value chunk). -/
def c6V1 : Bytes := ⟨32, 3507 * 256 ^ 16 + 3497 * 256 ^ 24⟩

end KV

namespace KV

def c6Script : List HOp :=
  [.store (.ofList [81, 48, 48, 48, 49, 50, 54]) (.ofList [86, 48, 48, 48, 48, 48, 48]),
   .store (.ofList [81, 48, 48, 48, 49, 53, 51]) (.ofList [86, 48, 48, 48, 48, 48, 49]),
   .store (.ofList [81, 48, 48, 48, 51, 52, 50]) (.ofList [86, 48, 48, 48, 48, 48, 50]),
   .store (.ofList [81, 48, 48, 48, 52, 56, 57]) (.ofList [86, 48, 48, 48, 48, 48, 51]),
   .store (.ofList [81, 48, 48, 48, 53, 52, 52]) (.ofList [86, 48, 48, 48, 48, 48, 52]),
   .store (.ofList [81, 48, 48, 48, 54, 48, 51]) (.ofList [86, 48, 48, 48, 48, 48, 53]),
   .store (.ofList [81, 48, 48, 48, 54, 55, 54]) (.ofList [86, 48, 48, 48, 48, 48, 54]),
   .store (.ofList [81, 48, 48, 48, 54, 57, 56]) (.ofList [86, 48, 48, 48, 48, 48, 55]),
   .store (.ofList [81, 48, 48, 48, 56, 49, 50]) (.ofList [86, 48, 48, 48, 48, 48, 56]),
   .store (.ofList [81, 48, 48, 48, 56, 56, 53]) (.ofList [86, 48, 48, 48, 48, 48, 57]),
   .store (.ofList [81, 48, 48, 49, 48, 53, 57]) (.ofList [86, 48, 48, 48, 48, 49, 48]),
   .store (.ofList [81, 48, 48, 49, 49, 52, 55]) (.ofList [86, 48, 48, 48, 48, 49, 49]),
   .store (.ofList [81, 48, 48, 49, 52, 53, 53]) (.ofList [86, 48, 48, 48, 48, 49, 50]),
   .store (.ofList [81, 48, 48, 49, 53, 50, 49]) (.ofList [86, 48, 48, 48, 48, 49, 51]),
   .store (.ofList [81, 48, 48, 49, 54, 49, 55]) (.ofList [86, 48, 48, 48, 48, 49, 52]),
   .store (.ofList [81, 48, 48, 49, 55, 51, 56]) (.ofList [86, 48, 48, 48, 48, 49, 53]),
   .store (.ofList [81, 48, 48, 49, 56, 50, 48]) (.ofList [86, 48, 48, 48, 48, 49, 54]),
   .store (.ofList [81, 48, 48, 50, 48, 50, 53]) (.ofList [86, 48, 48, 48, 48, 49, 55]),
   .store (.ofList [81, 48, 48, 50, 50, 49, 54]) (.ofList [86, 48, 48, 48, 48, 49, 56]),
   .store (.ofList [81, 48, 48, 50, 50, 54, 51]) (.ofList [86, 48, 48, 48, 48, 49, 57]),
   .store (.ofList [81, 48, 48, 50, 51, 55, 57]) (.ofList [86, 48, 48, 48, 48, 50, 48]),
   .store (.ofList [81, 48, 48, 50, 53, 50, 52]) (.ofList [86, 48, 48, 48, 48, 50, 49]),
   .store (.ofList [81, 48, 48, 50, 54, 52, 49]) (.ofList [86, 48, 48, 48, 48, 50, 50]),
   .store (.ofList [81, 48, 48, 50, 55, 55, 53]) (.ofList [86, 48, 48, 48, 48, 50, 51]),
   .store (.ofList [81, 48, 48, 50, 57, 48, 50]) (.ofList [86, 48, 48, 48, 48, 50, 52]),
   .store (.ofList [81, 48, 48, 50, 57, 57, 53]) (.ofList [86, 48, 48, 48, 48, 50, 53]),
   .store (.ofList [81, 48, 48, 51, 49, 48, 49]) (.ofList [86, 48, 48, 48, 48, 50, 54]),
   .store (.ofList [81, 48, 48, 51, 51, 49, 48]) (.ofList [86, 48, 48, 48, 48, 50, 55]),
   .store (.ofList [81, 48, 48, 51, 52, 52, 48]) (.ofList [86, 48, 48, 48, 48, 50, 56]),
   .store (.ofList [81, 48, 48, 51, 54, 51, 55]) (.ofList [86, 48, 48, 48, 48, 50, 57]),
   .store (.ofList [81, 48, 48, 51, 55, 53, 56]) (.ofList [86, 48, 48, 48, 48, 51, 48]),
   .store (.ofList [81, 48, 48, 51, 56, 55, 49]) (.ofList [86, 48, 48, 48, 48, 51, 49]),
   .store c6KA (.ofList [170]),
   .store (.ofList [35, 100]) (.ofList [187]),
   .store (.ofList [36, 81]) (.ofList [204]),
   .del (.ofList [35, 100]),
   .store (.ofList [37, 62]) c6V1,
   .del (.ofList [36, 81]),
   .store (.ofList [37, 62]) (.ofList [85])]

/-- The reachable pre-split state: 32 colliding keys in slot 1 plus the
corruption prologue in slot 0. -/
def c6Pre : Pool := okPool (runOps hm0 c6Script 200)

/-- The state after `Store(k33, v33)`, which splits slot 1. -/
def c6Post : Pool := okPool (hmStore c6Pre c6K33 c6V33 200)

end KV

namespace KV

/-! ## Specification-side definitions (used only in theorem statements) -/

/-- Placeholder node for index-based access in list statements. -/
def dummyNode : KVNode := ⟨0, 0, 0, 0, 0⟩

/-- Placeholder block for index-based access in object statements. -/
def dummyBlock : BlockMeta := ⟨0, 0, 0⟩

/-- `ListRepr p l`: the pool `p` contains the well-formed doubly linked
KV-node list `l`: pairwise distinct non-zero node pointers; every node's
chunk decodes back to exactly that node, is not free, and has capacity for a
node record; `Prev`/`Next` fields link consecutive elements (`0` at the two
ends). -/
def ListRepr (p : Pool) (l : List KVNode) : Prop :=
  (l.map KVNode.ptr).Nodup ∧
  ∀ i < l.length,
    (l.getD i dummyNode).ptr ≠ 0 ∧
    KVNode.fromPtr p (l.getD i dummyNode).ptr = .ok (l.getD i dummyNode) ∧
    ((p.find? (l.getD i dummyNode).ptr).map fun c =>
      decide (c.free = false ∧ sizeKVNode ≤ c.cap)) = some true ∧
    (l.getD i dummyNode).prev = (if i = 0 then 0 else (l.getD (i - 1) dummyNode).ptr) ∧
    (l.getD i dummyNode).next =
      (if i + 1 = l.length then 0 else (l.getD (i + 1) dummyNode).ptr)

/-- Sum of the `End` fields of a list of blocks. -/
def sumEnds (bs : List BlockMeta) : ℕ := (bs.map BlockMeta.End).sum

/-- Absolute cursor position of an object: bytes of the blocks before the
cursor's block plus the in-block offset. -/
def sumOff (o : Obj) : ℕ := sumEnds (o.blocks.take o.posBlockIdx) + o.posBlockOff

/-- Well-formed block chain as `BlockDB.blocks` resolves one: non-empty;
every `End` fits `uint32`; `Next` is `0` exactly on the last block; every
non-tail block is non-empty. -/
def blocksWF (bs : List BlockMeta) : Prop :=
  bs ≠ [] ∧
  (∀ i < bs.length, (bs.getD i dummyBlock).End < 2 ^ 32) ∧
  (∀ i < bs.length, ((bs.getD i dummyBlock).Next = 0 ↔ i + 1 = bs.length)) ∧
  (∀ i, i + 1 < bs.length → 0 < (bs.getD i dummyBlock).End)

/-- Consistent cursor: a valid block index, an in-block offset within the
block's `End`, and an `offset` field equal to the absolute position. -/
def cursorWF (o : Obj) : Prop :=
  o.posBlockIdx < o.blocks.length ∧
  o.posBlockOff ≤ (o.blocks.getD o.posBlockIdx dummyBlock).End ∧
  o.offset = (sumOff o : ℤ)

/-- Object state on which `Seek` is specified below. -/
def SeekWFCore (o : Obj) : Prop := blocksWF o.blocks ∧ cursorWF o

/-- `SeekWF` additionally requires the cursor not to be parked exactly at
the end of a non-tail block.  The read/write/seek paths that reach the end
of a block with a successor advance past it eagerly; the only way to park
the cursor on such a boundary is a preceding backward seek landing exactly
on it (after which the Go code's relative seek misreports `io.EOF` — see
the doc comment of the claim-C4 theorems). -/
def SeekWF (o : Obj) : Prop :=
  SeekWFCore o ∧
  (o.posBlockOff = (o.blocks.getD o.posBlockIdx dummyBlock).End →
    o.posBlockIdx + 1 = o.blocks.length)

/-- Pool operations named by the chunk-pointer-stability claim (C8). -/
inductive POp where
  | alloc (n : ℕ)
  | write (ptr : ℕ) (bs : Bytes)
  | free (ptr : ℕ)
deriving DecidableEq, Repr

/-- Effect of one pool operation on the pool (failed chunk operations leave
the pool unchanged). -/
def applyPOp (p : Pool) : POp → Pool
  | .alloc n => (p.alloc n).1
  | .write ptr bs =>
    match p.write ptr bs with
    | .ok p1 => p1
    | .error _ => p
  | .free ptr =>
    match p.freeChunk ptr with
    | .ok p1 => p1
    | .error _ => p

/-- Effect of a sequence of pool operations. -/
def applyPOps (p : Pool) (ops : List POp) : Pool := ops.foldl applyPOp p

/-- The node that `HashMap.Store(key, value)` matches and overwrites, when
there is one: the walk `Store` itself performs — value chunk allocated
first, then `findBucket` from the root, then the key scan.  Used to state
the hypothesis of the amended claim C10 ("no reachable matched node has a
zero `Value` field"). -/
def storeMatchedNode (p : Pool) (key value : Bytes) (fuel : ℕ) : Option KVNode :=
  match p.allocAndWrite value with
  | .error _ => none
  | .ok (p1, _) =>
    match readBuckets p1 0 with
    | .error _ => none
    | .ok root =>
      match findBucket p1 0 root key fuel with
      | some (.ok (_, _, e)) =>
        if e.head = 0 then none
        else
          match KVNode.fromPtr p1 e.head with
          | .error _ => none
          | .ok head =>
            match findItem p1 (some head) key fuel with
            | some (.ok r) => r
            | _ => none
      | _ => none

/-- The node that `HashMap.Delete(key)` finds and deletes, when there is
one: the walk `Delete` itself performs.  Used to state the hypothesis of
the amended claim C10. -/
def deleteMatchedNode (p : Pool) (key : Bytes) (fuel : ℕ) : Option KVNode :=
  match readBuckets p 0 with
  | .error _ => none
  | .ok root =>
    match findBucket p 0 root key fuel with
    | some (.ok (_, _, e)) =>
      if e.head = 0 then none
      else
        match KVNode.fromPtr p e.head with
        | .error _ => none
        | .ok head =>
          match findItem p (some head) key fuel with
          | some (.ok r) => r
          | _ => none
    | _ => none

/-- Concrete healthy one-key hash map (`Store([34,119], [170])` on a fresh
map), used by the witness of the amended claim C10. -/
def c10W : Pool := okPool (hmStore hm0 c2KA c2VA 100)

/-- Store-facade state after committing a single `Set("foo", k, v)`
(`k = [107]`, `v = [49]`) on a fresh store: the bucket hash-map holds the
pair, registered in the in-memory map under the plain name `"foo"`. -/
def c1St : StoreState :=
  match writeTxWrite storeNew "foo" (.ofList [107]) (.ofList [49]) 100 with
  | some (.ok st) => st
  | _ => storeNew

/-- Root-chunk health predicate for claim C10: the pool knows a chunk at
pointer `0` and it is not free. -/
def RootLive (p : Pool) : Prop :=
  ((p.find? 0).map Chunk.free) = some false

end KV

namespace KV

/-! ## Helper lemmas on the pool -/

theorem assocSet_map_fst : ∀ (l : List (ℕ × Chunk)) (ptr : ℕ) (c : Chunk),
    (assocSet l ptr c).map Prod.fst = l.map Prod.fst
  | [], _, _ => rfl
  | pc :: rest, ptr, c => by
    simp only [assocSet]
    by_cases h : pc.1 = ptr
    · simp [h]
    · simp [h, assocSet_map_fst rest ptr c]

theorem Pool.set_map_fst (p : Pool) (ptr : ℕ) (c : Chunk) :
    (p.set ptr c).chunks.map Prod.fst = p.chunks.map Prod.fst :=
  assocSet_map_fst p.chunks ptr c

theorem list_find?_fst_isSome : ∀ (l : List (ℕ × Chunk)) (ptr : ℕ),
    ((l.find? (fun pc => pc.1 = ptr)).map (·.2)).isSome ↔ ptr ∈ l.map Prod.fst
  | [], ptr => by simp
  | pc :: rest, ptr => by
    by_cases h : pc.1 = ptr
    · rw [List.find?_cons_of_pos _ (by simpa using h)]
      simp [h]
    · rw [List.find?_cons_of_neg _ (by simpa using h)]
      simp only [List.map_cons, List.mem_cons]
      rw [list_find?_fst_isSome rest ptr]
      constructor
      · exact Or.inr
      · rintro (he | hm)
        · exact absurd he.symm h
        · exact hm

theorem find?_isSome_iff (p : Pool) (ptr : ℕ) :
    (p.find? ptr).isSome ↔ ptr ∈ p.chunks.map Prod.fst :=
  list_find?_fst_isSome p.chunks ptr

/-- Every single pool operation of claim C8 only appends chunks (or rewrites
one in place): the association-list keys are extended, never changed. -/
theorem applyPOp_keys (p : Pool) (op : POp) :
    ∃ tail, (applyPOp p op).chunks.map Prod.fst = p.chunks.map Prod.fst ++ tail := by
  cases op with
  | alloc n =>
    simp only [applyPOp, Pool.alloc]
    cases p.pickFree n with
    | none => exact ⟨[p.fileEnd], by simp⟩
    | some pc => exact ⟨[], by simp [Pool.set_map_fst]⟩
  | write ptr bs =>
    simp only [applyPOp, Pool.write]
    cases h : p.find? ptr with
    | none => exact ⟨[], by simp⟩
    | some c =>
      by_cases hc : c.cap < bs.len
      · exact ⟨[], by simp [hc]⟩
      · exact ⟨[], by simp [hc, Pool.set_map_fst]⟩
  | free ptr =>
    simp only [applyPOp, Pool.freeChunk]
    cases h : p.find? ptr with
    | none => exact ⟨[], by simp⟩
    | some c => exact ⟨[], by simp [Pool.set_map_fst]⟩

/-- C8.  Chunk-pointer stability: a pointer known to the pool still resolves
after any sequence of `Alloc` / `Write` / `Free` operations, and the pool's
chunk positions are only ever appended to — chunks are never moved or
removed.  (A resolved chunk's header position is the pointer itself: the
pool is keyed by header positions.) -/
theorem chunkPtr_stability (p : Pool) (ptr : ℕ) (ops : List POp)
    (h : (p.find? ptr).isSome) :
    ((applyPOps p ops).find? ptr).isSome ∧
    ∃ tail, (applyPOps p ops).chunks.map Prod.fst = p.chunks.map Prod.fst ++ tail := by
  induction ops generalizing p with
  | nil => exact ⟨h, [], by simp [applyPOps]⟩
  | cons op rest ih =>
    obtain ⟨t1, ht1⟩ := applyPOp_keys p op
    have h1 : ((applyPOp p op).find? ptr).isSome := by
      rw [find?_isSome_iff, ht1]
      exact List.mem_append_left _ ((find?_isSome_iff p ptr).mp h)
    obtain ⟨hs, t2, ht2⟩ := ih (applyPOp p op) h1
    refine ⟨by simpa [applyPOps] using hs, t1 ++ t2, ?_⟩
    have : applyPOps p (op :: rest) = applyPOps (applyPOp p op) rest := by
      simp [applyPOps]
    rw [this, ht2, ht1, List.append_assoc]

/-- Witness for C8 at a concrete input: a pool with one chunk at pointer 0,
then an alloc, a write and a free. -/
theorem chunkPtr_stability_witness :
    ((⟨[(0, ⟨4, 0, false, 0⟩)], 13⟩ : Pool).find? 0).isSome ∧
    ((applyPOps ⟨[(0, ⟨4, 0, false, 0⟩)], 13⟩
        [.alloc 3, .write 0 (.ofList [1, 2]), .free 0]).find? 0).isSome :=
  ⟨by decide,
   (chunkPtr_stability ⟨[(0, ⟨4, 0, false, 0⟩)], 13⟩ 0
     [.alloc 3, .write 0 (.ofList [1, 2]), .free 0] (by decide)).1⟩

/-- C9.  Dereferencing a pointer that is not the header position of a chunk
known to the pool fails with a not-found error (the lookup reads no file
bytes), at every layer: `Pool.Get` itself, a KV node's `Key`/`Value`
dereference, its `Prev`/`Next` walk (when the link is non-zero), and a
bucket entry's child-array `Head` in `findBucket`. -/
theorem deref_unknown_ptr_errors :
    (∀ (p : Pool) (ptr : ℕ), p.find? ptr = none →
      p.get ptr = .error (.notFound ptr)) ∧
    (∀ (p : Pool) (n : KVNode), p.find? n.key = none →
      KVNode.keyBytes p n = .error (.notFound n.key)) ∧
    (∀ (p : Pool) (n : KVNode), p.find? n.value = none →
      KVNode.valueBytes p n = .error (.notFound n.value)) ∧
    (∀ (p : Pool) (n : KVNode), n.prev ≠ 0 → p.find? n.prev = none →
      KVNode.prevNode p n = .error (.notFound n.prev)) ∧
    (∀ (p : Pool) (n : KVNode), n.next ≠ 0 → p.find? n.next = none →
      KVNode.nextNode p n = .error (.notFound n.next)) ∧
    (∀ (p : Pool) (arrayPos : ℕ) (es : List Entry) (key : Bytes) (fuel : ℕ),
      (es.getD (slotOf arrayPos key) ⟨0, 0⟩).type = 1 →
      p.find? (es.getD (slotOf arrayPos key) ⟨0, 0⟩).head = none →
      findBucket p arrayPos es key (fuel + 1) =
        some (.error (.notFound (es.getD (slotOf arrayPos key) ⟨0, 0⟩).head))) := by
  refine ⟨?_, ?_, ?_, ?_, ?_, ?_⟩
  · intro p ptr h
    simp [Pool.get, h]
  · intro p n h
    simp [KVNode.keyBytes, Pool.readAll, h]
  · intro p n h
    simp [KVNode.valueBytes, Pool.readAll, h]
  · intro p n hne h
    simp [KVNode.prevNode, KVNode.fromPtr, Pool.readAll, h, hne]
  · intro p n hne h
    simp [KVNode.nextNode, KVNode.fromPtr, Pool.readAll, h, hne]
  · intro p arrayPos es key fuel ht h
    have h0 : (es.getD (slotOf arrayPos key) ⟨0, 0⟩).type ≠ 0 := by rw [ht]; decide
    simp only [findBucket, readBuckets, Pool.readAll, h, if_neg h0, if_pos ht]

/-- Witness for C9: concrete instantiations of every part over small pools. -/
theorem deref_unknown_ptr_errors_witness :
    emptyPool.get 5 = .error (.notFound 5) ∧
    KVNode.keyBytes emptyPool ⟨1, 0, 0, 7, 8⟩ = .error (.notFound 7) ∧
    KVNode.valueBytes emptyPool ⟨1, 0, 0, 7, 8⟩ = .error (.notFound 8) ∧
    KVNode.prevNode emptyPool ⟨1, 3, 4, 7, 8⟩ = .error (.notFound 3) ∧
    KVNode.nextNode emptyPool ⟨1, 3, 4, 7, 8⟩ = .error (.notFound 4) ∧
    findBucket emptyPool 0 (List.replicate 128 ⟨1, 77⟩) (.ofList [9]) 5 =
      some (.error (.notFound 77)) :=
  ⟨deref_unknown_ptr_errors.1 emptyPool 5 (by decide),
   deref_unknown_ptr_errors.2.1 emptyPool ⟨1, 0, 0, 7, 8⟩ (by decide),
   deref_unknown_ptr_errors.2.2.1 emptyPool ⟨1, 0, 0, 7, 8⟩ (by decide),
   deref_unknown_ptr_errors.2.2.2.1 emptyPool ⟨1, 3, 4, 7, 8⟩ (by decide) (by decide),
   deref_unknown_ptr_errors.2.2.2.2.1 emptyPool ⟨1, 3, 4, 7, 8⟩ (by decide) (by decide),
   by
     have := deref_unknown_ptr_errors.2.2.2.2.2 emptyPool 0
       (List.replicate 128 ⟨1, 77⟩) (.ofList [9]) 4 (by decide) (by decide)
     simpa using this⟩

end KV

namespace KV

/-! ## Claim C2: Store followed by Load -/

/-- C2 (refuting evaluation).  The claim "for every hash-map and all byte
strings `k` and `v`, immediately after a successful `Store(k, v)` the next
`Load(k)` returns `(v, true)`, regardless of the sequence of Store/Delete
operations performed before" is false.  From a fresh hash map, the seven
operations of `c2PreScript` reach a state — via `Delete` on a middle node,
which patches only the predecessor's `Next` and leaves the successor's
`Prev` dangling at the freed node chunk, later recycled by the allocator —
in which `Store(kA, c2V3)` succeeds (it matches a fabricated node sitting in
the chunk into which the value itself was just written, and `SetValue`
rewrites that chunk), and the immediately following `Load(kA)` returns
`(c2W, true)` with `c2W ≠ c2V3`. -/
theorem store_then_load_returns_other_value :
    newHashMap emptyPool = .ok (hm0, 0) ∧
    runOps hm0 c2PreScript 100 = some (.ok c2Pre) ∧
    hmStore c2Pre c2KA c2V3 100 = some (.ok c2Post) ∧
    hmLoad c2Post c2KA 100 = some (.ok (some c2W, true)) ∧
    c2W ≠ c2V3 := by
  refine ⟨by decide, by decide, by decide, by decide, by decide⟩

/-! ## Claim C7: Delete followed by Load -/

/-- C7 (refuting evaluation).  The claim "for every hash-map and key `k`: if
`k` is currently stored, `Delete(k)` succeeds and the next `Load(k)` returns
`(_, false)`; ..." is false.  In the reachable state `c2Post`, `kA` is
currently stored (`Load` finds it), `Delete(kA)` succeeds — it removes the
fabricated duplicate at chunk 1244 and promotes that node's `Next`, which is
`kA`'s original node 1182, to the slot head — and the next `Load(kA)`
returns `([170], true)`: still found. -/
theorem delete_then_load_still_found :
    runOps hm0 (c2PreScript ++ [.store c2KA c2V3]) 100 = some (.ok c2Post) ∧
    hmLoad c2Post c2KA 100 = some (.ok (some c2W, true)) ∧
    hmDelete c2Post c2KA 100 = some (.ok c7Deleted) ∧
    hmLoad c7Deleted c2KA 100 = some (.ok (some (.ofList [170]), true)) := by
  refine ⟨by decide, by decide, by decide, by decide⟩

/-! ## Claim C10 (counterexample part): a Store can free the root chunk -/

/-- C10 (counterexample).  "No hash-map operation ever frees or relocates
the root-array chunk at pointer 0" is false as stated: in the reachable
state `c10Pre` the root chunk is live, and the successful
`Store(kA, [17])` — matching a fabricated node whose `Value` field is `0` —
frees "the old value chunk", which is chunk 0, the root bucket array. -/
theorem store_frees_root_chunk :
    runOps hm0 c10Script 100 = some (.ok c10Pre) ∧
    ((c10Pre.find? 0).map Chunk.free) = some false ∧
    hmStore c10Pre c2KA (.ofList [17]) 100 = some (.ok c10Post) ∧
    ((c10Post.find? 0).map Chunk.free) = some true := by
  refine ⟨by decide, by decide, by decide, by decide⟩

/-! ## Claim C3 (counterexample part): Delete of a middle node -/

/-- C3 (counterexample).  "A successful `Delete` on `n` ... patches both
neighbours' links (the predecessor's `Next` becomes `n`'s successor and the
successor's `Prev` becomes `n`'s predecessor)" is false for a middle node.
In the three-node list `a (60) ↔ b (101) ↔ c (142)`, deleting `b` succeeds
(frees `b`'s chunk, patches `a.Next = 142`, returns the head pointer 60),
but the successor `c`'s stored `Prev` is still `101` — the freed node — and
not the predecessor `60`. -/
theorem delete_middle_leaves_successor_prev :
    c3Built = some (c3Pool, ⟨60, 0, 101, 0, 10⟩, c3NodeB, ⟨142, 101, 0, 40, 50⟩) ∧
    KVNode.delete c3Pool c3NodeB 100 = some (.ok (60, c3After)) ∧
    ((c3After.find? 101).map Chunk.free) = some true ∧
    KVNode.fromPtr c3After 60 = .ok ⟨60, 0, 142, 0, 10⟩ ∧
    KVNode.fromPtr c3After 142 = .ok ⟨142, 101, 0, 40, 50⟩ ∧
    (101 : ℕ) ≠ 60 := by
  refine ⟨by decide, by decide, by decide, by decide, by decide, by decide⟩

/-! ## Claim C4 (counterexample part): Seek from the end -/

/-- C4 (counterexample).  "`Seek(offset, whence)` behaves as a normal stream
seek ... with `whence = end` the cursor lands at logical size + offset" is
false: on a single-block object of size 26, `Seek(5, end)` succeeds and
returns position 21 = size − 5 — the Go code walks `offset` bytes
*backwards* from the end — whereas a normal stream seek would land at 31
(and, being past the end, the claim's own error clause would demand an
end-of-stream error instead of success). -/
theorem seek_end_goes_backwards :
    (c4Obj.seek 5 2 100).map (fun r => r.1) = some (.ok 21) ∧
    (21 : ℤ) ≠ 26 + 5 := by
  refine ⟨by decide, by decide⟩

/-! ## Claim C5 (counterexample part): blocks allocated on a full block -/

/-- C5 (counterexample).  "Whenever `Object.Write` fills the current block
and that block's `Next` is 0 while input bytes remain, it allocates exactly
`ceil(remaining/BlockSize)` additional blocks (minimum 1)" is false: the Go
code computes `len(p) / BlockSize` — integer (floor) division — with a
minimum of 1.  Writing 25 bytes into an empty one-block object with
`BlockSize = 16` (payload 8 per block) first fills the block with 8 bytes,
leaving 17; the alloc then requests 1 block (17/16), not
`ceil(17/16) = 2`; the remaining allocations are also 1 each. -/
theorem write_allocates_floor_not_ceil :
    (objWrite 50 c5DB c5Obj 25).map (fun r => r.map (fun q => (q.2.2.1, q.2.2.2))) =
      some (.ok (25, [(17, 1), (9, 1), (1, 1)])) ∧
    (17 + 16 - 1) / 16 = 2 ∧ (1 : ℕ) ≠ 2 := by
  refine ⟨by decide, by decide, by decide⟩

end KV

namespace KV

/-! ## Claim C1: the round trip through the store facade -/

/-- C1 (refuting evaluation).  "After creating a bucket, setting a key,
committing, closing and reopening the file, `Get(bucket, key)` returns the
last-committed value" is false: it always fails with `ErrBucketNotFound`.
`New` initialises the in-memory `buckets` map empty and nothing repopulates
it on open, so the reopened store's `Get` path finds no bucket; the state of
a reopened store, as far as `readTx.Get` is concerned, is `storeNew`
whatever the file holds.  (The commit itself does persist the pair — third
and fourth conjuncts — but files it under the plain bucket name, while the
`Get` path looks it up under `bucket/<name>`, so even the in-session `Get`
fails the same way — last conjunct.) -/
theorem reopen_get_bucket_not_found :
    (∀ (bucket : String) (key : Bytes) (fuel : ℕ),
      readTxGet storeNew bucket key fuel = some (.error .bucketNotFound)) ∧
    writeTxWrite storeNew "foo" (.ofList [107]) (.ofList [49]) 100 = some (.ok c1St) ∧
    ((c1St.buckets.lookup "foo").map (fun m => hmLoad m (.ofList [107]) 100)) =
      some (some (.ok (some (.ofList [49]), true))) ∧
    c1St.buckets.lookup (bucketPath "foo") = none := by
  refine ⟨fun bucket key fuel => rfl, rfl, rfl, rfl⟩

end KV

namespace KV

/-! ## Claim C6: the bucket split -/

/-- C6 (refuting evaluation).  "When a key is upserted into a `List` bucket
whose list already holds at least 32 entries ... every previously stored key
is still retrievable afterwards" is false.  From the empty hash map, the
reachable state `c6Pre` (conjunct 1) has `kA` stored and loadable
(conjunct 2), slot 1 of the root a `List` entry whose list holds exactly 32
nodes (conjuncts 3-4), and `k33` — also hashing to slot 1 — absent
(conjunct 5).  `Store(k33, v33)` succeeds and splits slot 1 into a child
`Buckets` entry (conjuncts 6-7), and `k33` is loadable afterwards
(conjunct 8) — but `Load(kA)` now returns `(nil, false)` (conjunct 9): the
split's node re-allocation reused the free chunk that a stale `Prev` pointer
left in `kA`'s slot-0 chain, overwriting the node through which `kA` was
reached. -/
theorem split_loses_previously_stored_key :
    runOps hm0 c6Script 200 = some (.ok c6Pre) ∧
    hmLoad c6Pre c6KA 200 = some (.ok (some (.ofList [170]), true)) ∧
    ((readBuckets c6Pre 0).map (fun es => (es.getD 1 ⟨0, 0⟩).type)) = .ok 0 ∧
    ((readBuckets c6Pre 0).map (fun es =>
       (KVNode.fromPtr c6Pre (es.getD 1 ⟨0, 0⟩).head).map
         (fun h => listSize c6Pre h 200))) = .ok (.ok (some (.ok 32))) ∧
    hmLoad c6Pre c6K33 200 = some (.ok (none, false)) ∧
    hmStore c6Pre c6K33 c6V33 200 = some (.ok c6Post) ∧
    ((readBuckets c6Post 0).map (fun es => (es.getD 1 ⟨0, 0⟩).type)) = .ok 1 ∧
    hmLoad c6Post c6K33 200 = some (.ok (some c6V33, true)) ∧
    hmLoad c6Post c6KA 200 = some (.ok (none, false)) := by
  decide

end KV

namespace KV

/-! ## Helper lemmas for the amended claim C5 -/

theorem diskSetNext_meta (db : DBState) (i v : ℕ) : (diskSetNext db i v).meta = db.meta := rfl

theorem diskSetEnd_meta (db : DBState) (i v : ℕ) : (diskSetEnd db i v).meta = db.meta := rfl

theorem growRaw_blockSize (db : DBState) (n : ℕ) :
    (growRaw db n).1.meta.blockSize = db.meta.blockSize := rfl

theorem objAlloc_blockSize (db : DBState) (o : Obj) (n fuel : ℕ)
    (r : DBState × Obj) (h : objAlloc db o n fuel = some (.ok r)) :
    r.1.meta.blockSize = db.meta.blockSize := by
  unfold objAlloc at h
  repeat'
    first
      | simp only [growRaw, Option.some.injEq, Except.ok.injEq, reduceCtorEq] at h
      | split at h
      | subst h
  all_goals rfl

end KV

namespace KV

theorem ifZeroOne_eq_max (n : ℕ) : (if n = 0 then 1 else n) = max 1 n := by
  rcases n with _ | m
  · rfl
  · simp [Nat.max_eq_right (Nat.succ_le_succ (Nat.zero_le m))]

theorem objWrite_alloc_log : ∀ (fuel : ℕ) (db : DBState) (o : Obj) (plen : ℕ)
    (res : DBState × Obj × ℕ × List (ℕ × ℕ)),
    objWrite fuel db o plen = some (.ok res) →
    res.1.meta.blockSize = db.meta.blockSize ∧
    ∀ ra ∈ res.2.2.2, ra.2 = max 1 (ra.1 / db.meta.blockSize)
  | 0, db, o, plen, res, h => by exact absurd h (by simp [objWrite])
  | fuel + 1, db, o, plen, res, h => by
    rw [objWrite] at h
    split at h
    · exact absurd h (by simp)
    rename_i bm hbm
    simp only [] at h
    split_ifs at h with c1 c2 c3 c4 c5 c6 c7 c8
    all_goals simp only [diskSetEnd_meta] at *
    all_goals repeat' split at h
    all_goals simp only [Option.some.injEq, Except.ok.injEq, reduceCtorEq] at h
    all_goals try subst h
    all_goals try exact ⟨rfl, by simp⟩
    all_goals try (rename_i db3 o5 n2 log heqW; have IH := objWrite_alloc_log fuel _ _ _ _ heqW; exact IH)
    all_goals
      rename_i db2 o3 heqA x0 db3 o5 n2 log heqW
      have IH := objWrite_alloc_log fuel _ _ _ _ heqW
      have hbs : db2.meta.blockSize = db.meta.blockSize :=
        objAlloc_blockSize _ _ _ _ _ heqA
      rw [hbs] at IH
      refine ⟨IH.1, ?_⟩
      intro ra hra
      rcases List.mem_cons.mp hra with rfl | hra
      · first
          | (have ht : (plen - min (sub32 (sub32 db.meta.blockSize blockMetaSize)
                  o.posBlockOff) plen) / db.meta.blockSize = 0 := by assumption
             simp [ht])
          | (have ht : ¬(plen - min (sub32 (sub32 db.meta.blockSize blockMetaSize)
                  o.posBlockOff) plen) / db.meta.blockSize = 0 := by assumption
             exact (max_eq_right (Nat.one_le_iff_ne_zero.mpr ht)).symm)
      · exact IH.2 ra hra

end KV

namespace KV

/-- C5 (amended).  Whenever `Object.write` fills the current block and that
block's `Next` is `0` while input bytes remain, the number of blocks it
requests from `alloc` is exactly `max 1 (remaining / BlockSize)` — integer
(floor) division, not `ceil(remaining/BlockSize)` — for every allocation
performed during the write (`res.2.2.2` is the instrumented list of
`(remaining, requested)` pairs), and the write leaves `BlockSize`
unchanged. -/
theorem object_write_alloc_requests (fuel plen : ℕ) (db : DBState) (o : Obj)
    (res : DBState × Obj × ℕ × List (ℕ × ℕ))
    (h : objWrite fuel db o plen = some (.ok res)) :
    res.1.meta.blockSize = db.meta.blockSize ∧
    ∀ ra ∈ res.2.2.2, ra.2 = max 1 (ra.1 / db.meta.blockSize) :=
  objWrite_alloc_log fuel db o plen res h

/-- Witness for the amended claim C5 at the concrete run of the
counterexample: writing 25 bytes into `c5Obj` over `c5DB`. -/
theorem object_write_alloc_requests_witness :
    (16 : ℕ) = c5DB.meta.blockSize ∧
    ∀ ra ∈ [((17 : ℕ), (1 : ℕ)), (9, 1), (1, 1)],
      ra.2 = max 1 (ra.1 / c5DB.meta.blockSize) := by
  have h := object_write_alloc_requests 50 25 c5DB c5Obj
      (⟨⟨16, 5, 0⟩, [(0, 0), (8, 2), (8, 3), (8, 4), (1, 0)]⟩,
       ⟨[⟨1, 8, 2⟩, ⟨2, 8, 3⟩, ⟨3, 8, 4⟩, ⟨4, 1, 0⟩], 3, 1, 25⟩, 25,
       [(17, 1), (9, 1), (1, 1)])
      (by rfl)
  exact h

end KV

namespace KV

/-! ## Pool update lemmas (shared by the amended claims C3 and C10) -/

theorem assocSet_find?_self : ∀ (l : List (ℕ × Chunk)) (ptr : ℕ) (c c0 : Chunk),
    (l.find? (fun pc => pc.1 = ptr)).map (·.2) = some c0 →
    ((assocSet l ptr c).find? (fun pc => pc.1 = ptr)).map (·.2) = some c
  | [], ptr, c, c0, h => by simp [List.find?] at h
  | pc :: rest, ptr, c, c0, h => by
    by_cases hp : pc.1 = ptr
    · simp [assocSet, hp, List.find?_cons_of_pos]
    · rw [List.find?_cons_of_neg _ (by simpa using hp)] at h
      simp only [assocSet, if_neg hp]
      rw [List.find?_cons_of_neg _ (by simpa using hp)]
      exact assocSet_find?_self rest ptr c c0 h

theorem assocSet_find?_ne : ∀ (l : List (ℕ × Chunk)) (ptr q : ℕ) (c : Chunk), q ≠ ptr →
    (assocSet l ptr c).find? (fun pc => pc.1 = q) = l.find? (fun pc => pc.1 = q)
  | [], _, _, _, _ => rfl
  | pc :: rest, ptr, q, c, hq => by
    by_cases hp : pc.1 = ptr
    · simp only [assocSet, if_pos hp]
      have hptr : ¬ptr = q := fun h => hq h.symm
      have hpc : ¬pc.1 = q := fun h => hq (hp.symm.trans h).symm
      rw [List.find?_cons_of_neg _ (by simpa using hptr),
        List.find?_cons_of_neg _ (by simpa using hpc)]
    · simp only [assocSet, if_neg hp]
      by_cases hpq : pc.1 = q
      · rw [List.find?_cons_of_pos _ (by simpa using hpq),
          List.find?_cons_of_pos _ (by simpa using hpq)]
      · rw [List.find?_cons_of_neg _ (by simpa using hpq),
          List.find?_cons_of_neg _ (by simpa using hpq)]
        exact assocSet_find?_ne rest ptr q c hq

theorem Pool.find?_set_self (p : Pool) (ptr : ℕ) (c c0 : Chunk)
    (h : p.find? ptr = some c0) : (p.set ptr c).find? ptr = some c :=
  assocSet_find?_self p.chunks ptr c c0 h

theorem Pool.find?_set_ne (p : Pool) (ptr q : ℕ) (c : Chunk) (hq : q ≠ ptr) :
    (p.set ptr c).find? q = p.find? q := by
  unfold Pool.find? Pool.set
  rw [assocSet_find?_ne p.chunks ptr q c hq]

theorem Pool.write_eq (p : Pool) (ptr : ℕ) (bs : Bytes) (c : Chunk)
    (h : p.find? ptr = some c) (hc : ¬ c.cap < bs.len) :
    p.write ptr bs = .ok (p.set ptr
      { c with
        size := bs.len,
        data := bs.val % 256 ^ bs.len + c.data / 256 ^ bs.len * 256 ^ bs.len }) := by
  simp only [Pool.write, h]
  rw [if_neg hc]

theorem Pool.freeChunk_eq (p : Pool) (ptr : ℕ) (c : Chunk)
    (h : p.find? ptr = some c) :
    p.freeChunk ptr = .ok (p.set ptr { c with free := true }) := by
  simp only [Pool.freeChunk, h]

theorem Pool.readAll_congr (p p1 : Pool) (q : ℕ) (h : p1.find? q = p.find? q) :
    p1.readAll q = p.readAll q := by
  rw [Pool.readAll, h, Pool.readAll]

theorem KVNode.fromPtr_congr (p p1 : Pool) (q : ℕ) (h : p1.find? q = p.find? q) :
    KVNode.fromPtr p1 q = KVNode.fromPtr p q := by
  rw [KVNode.fromPtr, Pool.readAll_congr p p1 q h, KVNode.fromPtr]

/-- Little-endian round trip of a node record through its chunk. -/
theorem decode_encode (pr nx k v : ℕ) :
    decodeKVNode ⟨sizeKVNode, (encodeKVNode pr nx k v).val % 256 ^ sizeKVNode⟩ =
      .ok (pr % 2 ^ 64, nx % 2 ^ 64, k % 2 ^ 64, v % 2 ^ 64) := by
  have h1 : pr % 2 ^ 64 < 2 ^ 64 := Nat.mod_lt _ (by norm_num)
  have h2 : nx % 2 ^ 64 < 2 ^ 64 := Nat.mod_lt _ (by norm_num)
  have h3 : k % 2 ^ 64 < 2 ^ 64 := Nat.mod_lt _ (by norm_num)
  have h4 : v % 2 ^ 64 < 2 ^ 64 := Nat.mod_lt _ (by norm_num)
  simp only [decodeKVNode, encodeKVNode, read64, Bytes.slice, sizeKVNode]
  norm_num
  omega

end KV

namespace KV

/-! ## Helper lemmas for the amended claim C3 -/

theorem find?_healthy (p : Pool) (ptr : ℕ)
    (h : ((p.find? ptr).map fun c => decide (c.free = false ∧ sizeKVNode ≤ c.cap)) =
      some true) :
    ∃ c, p.find? ptr = some c ∧ c.free = false ∧ sizeKVNode ≤ c.cap := by
  cases hf : p.find? ptr with
  | none => rw [hf] at h; exact Option.noConfusion h
  | some c =>
    rw [hf] at h
    simp only [Option.map_some', Option.map_some, Option.some.injEq, decide_eq_true_eq] at h
    exact ⟨c, rfl, h⟩

theorem read64_lt (b : Bytes) (off : ℕ) : read64 b off < 2 ^ 64 := by
  have h : b.val / 256 ^ off % 256 ^ 8 < 256 ^ 8 := Nat.mod_lt _ (by positivity)
  simpa [read64, Bytes.slice] using lt_of_lt_of_le h (by norm_num)

theorem fromPtr_fields_lt (p : Pool) (ptr : ℕ) (n : KVNode)
    (h : KVNode.fromPtr p ptr = .ok n) :
    n.prev < 2 ^ 64 ∧ n.next < 2 ^ 64 ∧ n.key < 2 ^ 64 ∧ n.value < 2 ^ 64 := by
  unfold KVNode.fromPtr at h
  split at h
  · cases h
  rename_i b hb
  split at h
  · cases h
  rename_i pr nx k v heq
  simp only [Except.ok.injEq] at h
  subst h
  unfold decodeKVNode at heq
  split at heq
  · cases heq
  simp only [Except.ok.injEq, Prod.mk.injEq] at heq
  obtain ⟨e1, e2, e3, e4⟩ := heq
  subst e1
  subst e2
  subst e3
  subst e4
  exact ⟨read64_lt b 0, read64_lt b 8, read64_lt b 16, read64_lt b 24⟩

/-- Writing node `n` into a live chunk of sufficient capacity: the write
succeeds, the node reads back, every other chunk is untouched, and the
node chunk's `free`/`cap` header fields are preserved. -/
theorem KVNode.write_ok (p : Pool) (n : KVNode) (c : Chunk)
    (h : p.find? n.ptr = some c) (hc : sizeKVNode ≤ c.cap)
    (h1 : n.prev < 2 ^ 64) (h2 : n.next < 2 ^ 64)
    (h3 : n.key < 2 ^ 64) (h4 : n.value < 2 ^ 64) :
    ∃ p1, KVNode.write p n = .ok p1 ∧
      KVNode.fromPtr p1 n.ptr = .ok n ∧
      (∀ q, q ≠ n.ptr → p1.find? q = p.find? q) ∧
      ((p1.find? n.ptr).map Chunk.free) = some c.free ∧
      ((p1.find? n.ptr).map Chunk.cap) = some c.cap := by
  have hlen : (encodeKVNode n.prev n.next n.key n.value).len = sizeKVNode := rfl
  have hnot : ¬ c.cap < (encodeKVNode n.prev n.next n.key n.value).len := by
    rw [hlen]; omega
  have hw := Pool.write_eq p n.ptr (encodeKVNode n.prev n.next n.key n.value) c h hnot
  refine ⟨_, hw, ?_, ?_, ?_, ?_⟩
  · have hfind := Pool.find?_set_self p n.ptr
      { c with
        size := (encodeKVNode n.prev n.next n.key n.value).len,
        data := (encodeKVNode n.prev n.next n.key n.value).val %
            256 ^ (encodeKVNode n.prev n.next n.key n.value).len +
          c.data / 256 ^ (encodeKVNode n.prev n.next n.key n.value).len *
            256 ^ (encodeKVNode n.prev n.next n.key n.value).len } c h
    rw [KVNode.fromPtr, Pool.readAll, hfind]
    have hdata : ((encodeKVNode n.prev n.next n.key n.value).val % 256 ^ sizeKVNode +
        c.data / 256 ^ sizeKVNode * 256 ^ sizeKVNode) % 256 ^ sizeKVNode =
        (encodeKVNode n.prev n.next n.key n.value).val % 256 ^ sizeKVNode := by
      rw [Nat.add_mul_mod_self_right, Nat.mod_mod_of_dvd _ dvd_rfl]
    simp only [hlen]
    rw [hdata, decode_encode, Nat.mod_eq_of_lt h1, Nat.mod_eq_of_lt h2,
      Nat.mod_eq_of_lt h3, Nat.mod_eq_of_lt h4]
  · intro q hq
    exact Pool.find?_set_ne p n.ptr q _ hq
  · rw [Pool.find?_set_self p n.ptr _ c h]
    rfl
  · rw [Pool.find?_set_self p n.ptr _ c h]
    rfl

/-- Distinct indices of a represented list carry distinct node pointers. -/
theorem repr_ptr_ne (p : Pool) (l : List KVNode) (h : ListRepr p l) (i j : ℕ)
    (hi : i < l.length) (hj : j < l.length) (hij : i ≠ j) :
    (l.getD i dummyNode).ptr ≠ (l.getD j dummyNode).ptr := by
  intro he
  apply hij
  have hi' : i < (l.map KVNode.ptr).length := by simpa using hi
  have hj' : j < (l.map KVNode.ptr).length := by simpa using hj
  have hg : (l.map KVNode.ptr).get ⟨i, hi'⟩ = (l.map KVNode.ptr).get ⟨j, hj'⟩ := by
    simp only [List.get_eq_getElem, List.getElem_map]
    rw [← List.getD_eq_getElem l dummyNode hi, ← List.getD_eq_getElem l dummyNode hj]
    exact he
  have hinj := List.nodup_iff_injective_get.mp h.1
  exact Fin.mk.inj_iff.mp (hinj hg)

/-- `KVNode.Delete`'s head walk reaches the list head. -/
theorem walkHead_repr (p : Pool) (l : List KVNode) (hrepr : ListRepr p l) :
    ∀ i fuel, i < l.length → i + 1 ≤ fuel →
      walkHead p (l.getD i dummyNode) fuel = some (.ok (l.getD 0 dummyNode)) := by
  intro i
  induction i with
  | zero =>
    intro fuel hi hf
    match fuel, hf with
    | f + 1, _ =>
      have h0 : (l.getD 0 dummyNode).prev = 0 := by
        simpa using (hrepr.2 0 hi).2.2.2.1
      rw [walkHead, if_pos h0]
  | succ i ih =>
    intro fuel hi hf
    match fuel, hf with
    | f + 1, hf =>
      have hilt : i < l.length := Nat.lt_of_succ_lt hi
      have hprev : (l.getD (i + 1) dummyNode).prev = (l.getD i dummyNode).ptr := by
        simpa using (hrepr.2 (i + 1) hi).2.2.2.1
      have hptr_ne : (l.getD i dummyNode).ptr ≠ 0 := (hrepr.2 i hilt).1
      have hfp : KVNode.fromPtr p (l.getD i dummyNode).ptr = .ok (l.getD i dummyNode) :=
        (hrepr.2 i hilt).2.1
      have hpn : KVNode.prevNode p (l.getD (i + 1) dummyNode) =
          .ok (some (l.getD i dummyNode)) := by
        rw [KVNode.prevNode, if_neg (by rw [hprev]; exact hptr_ne), hprev, hfp]
      rw [walkHead, if_neg (by rw [hprev]; exact hptr_ne), hpn]
      exact ih f hilt (by omega)

end KV

namespace KV

/-- C3 (amended).  For every represented KV-node list and node `n = l[i]`,
`Delete` succeeds, frees exactly `n`'s own chunk, and returns the successor
pointer when `n` was the head, otherwise the head's pointer.  A head
deletion clears the successor's `Prev`; a non-head deletion patches the
predecessor's `Next` to `n`'s successor.  Every node other than the deleted
one and that single patched neighbour is byte-identical afterwards — in
particular, for a middle node the successor (index `i + 1`, covered by the
frame clause) still stores `Prev = n.ptr`, the freed chunk: the claim's
"the successor's Prev becomes n's predecessor" is false, and only this
amended statement holds. -/
theorem kvnode_delete_spec (p : Pool) (l : List KVNode) (i fuel : ℕ)
    (hrepr : ListRepr p l) (hi : i < l.length) (hfuel : i + 1 ≤ fuel) :
    ∃ p', KVNode.delete p (l.getD i dummyNode) fuel =
        some (.ok ((if i = 0 then (l.getD i dummyNode).next
          else (l.getD 0 dummyNode).ptr), p')) ∧
      ((p'.find? (l.getD i dummyNode).ptr).map Chunk.free) = some true ∧
      (i = 0 → 1 < l.length →
        KVNode.fromPtr p' (l.getD 1 dummyNode).ptr =
          .ok { l.getD 1 dummyNode with prev := 0 }) ∧
      (0 < i →
        KVNode.fromPtr p' (l.getD (i - 1) dummyNode).ptr =
          .ok { l.getD (i - 1) dummyNode with next := (l.getD i dummyNode).next }) ∧
      (∀ j, j < l.length → j ≠ i → j ≠ (if i = 0 then 1 else i - 1) →
        KVNode.fromPtr p' (l.getD j dummyNode).ptr = .ok (l.getD j dummyNode)) := by
  by_cases h0 : i = 0
  · subst h0
    have hn := hrepr.2 0 hi
    obtain ⟨c, hc, hcfree, hccap⟩ := find?_healthy p _ hn.2.2.1
    have hp0 : (l.getD 0 dummyNode).prev = 0 := by simpa using hn.2.2.2.1
    have hfree := Pool.freeChunk_eq p (l.getD 0 dummyNode).ptr c hc
    by_cases h1 : 1 < l.length
    · have hs := hrepr.2 1 h1
      have hne01 : (l.getD 0 dummyNode).ptr ≠ (l.getD 1 dummyNode).ptr :=
        repr_ptr_ne p l hrepr 0 1 hi h1 (by omega)
      have hnn1 : (l.getD 0 dummyNode).next = (l.getD 1 dummyNode).ptr := by
        have hx := hn.2.2.2.2
        rw [if_neg (by omega)] at hx
        simpa using hx
      obtain ⟨c1, hc1, hc1free, hc1cap⟩ := find?_healthy p _ hs.2.2.1
      have hfind1 : (p.set (l.getD 0 dummyNode).ptr { c with free := true }).find?
          (l.getD 1 dummyNode).ptr = some c1 := by
        rw [Pool.find?_set_ne p _ _ _ (Ne.symm hne01)]
        exact hc1
      have hbounds := fromPtr_fields_lt p _ _ hs.2.1
      obtain ⟨p2, hw2, hback2, hframe2, hfree2, hcap2⟩ :=
        KVNode.write_ok (p.set (l.getD 0 dummyNode).ptr { c with free := true })
          { l.getD 1 dummyNode with prev := 0 } c1 hfind1 hc1cap
          (by norm_num) hbounds.2.1 hbounds.2.2.1 hbounds.2.2.2
      have hnxt : KVNode.nextNode (p.set (l.getD 0 dummyNode).ptr { c with free := true })
          (l.getD 0 dummyNode) = .ok (some (l.getD 1 dummyNode)) := by
        rw [KVNode.nextNode, if_neg (by rw [hnn1]; exact hs.1), hnn1,
          KVNode.fromPtr_congr p _ _ (Pool.find?_set_ne p _ _ _ (Ne.symm hne01)), hs.2.1]
      refine ⟨p2, ?_, ?_, ?_, ?_, ?_⟩
      · rw [KVNode.delete, if_pos hp0, hfree]
        simp only []
        rw [hnxt]
        simp only []
        rw [hw2]
        simp only [reduceIte]
      · have hne01x : (l.getD 0 dummyNode).ptr ≠
            ({ l.getD 1 dummyNode with prev := 0 } : KVNode).ptr := hne01
        have hfr0 : p2.find? (l.getD 0 dummyNode).ptr =
            (p.set (l.getD 0 dummyNode).ptr { c with free := true }).find?
              (l.getD 0 dummyNode).ptr := by
          exact hframe2 _ hne01x
        rw [hfr0, Pool.find?_set_self p _ _ c hc]
        rfl
      · intro _ _
        exact hback2
      · intro hlt
        exact absurd hlt (by omega)
      · intro j hj hj0 hj1
        simp only [reduceIte] at hj1
        have hrj := hrepr.2 j hj
        have hnej0 : (l.getD j dummyNode).ptr ≠ (l.getD 0 dummyNode).ptr :=
          repr_ptr_ne p l hrepr j 0 hj hi hj0
        have hnej1 : (l.getD j dummyNode).ptr ≠ (l.getD 1 dummyNode).ptr :=
          repr_ptr_ne p l hrepr j 1 hj h1 hj1
        have hnej1x : (l.getD j dummyNode).ptr ≠
            ({ l.getD 1 dummyNode with prev := 0 } : KVNode).ptr := hnej1
        have hfrj : p2.find? (l.getD j dummyNode).ptr =
            (p.set (l.getD 0 dummyNode).ptr { c with free := true }).find?
              (l.getD j dummyNode).ptr := by
          exact hframe2 _ hnej1x
        rw [KVNode.fromPtr_congr _ _ _ hfrj,
          KVNode.fromPtr_congr p _ _ (Pool.find?_set_ne p _ _ _ hnej0), hrj.2.1]
    · -- singleton list: no successor
      have hn0 : (l.getD 0 dummyNode).next = 0 := by
        have hx := hn.2.2.2.2
        rw [if_pos (by omega)] at hx
        exact hx
      have hnxt : KVNode.nextNode (p.set (l.getD 0 dummyNode).ptr { c with free := true })
          (l.getD 0 dummyNode) = .ok none := by
        rw [KVNode.nextNode, if_pos hn0]
      refine ⟨p.set (l.getD 0 dummyNode).ptr { c with free := true }, ?_, ?_, ?_, ?_, ?_⟩
      · rw [KVNode.delete, if_pos hp0, hfree]
        simp only []
        rw [hnxt]
        simp only [reduceIte]
      · rw [Pool.find?_set_self p _ _ c hc]
        rfl
      · intro _ hlt
        exact absurd hlt h1
      · intro hlt
        exact absurd hlt (by omega)
      · intro j hj hj0 _
        exact absurd (by omega : j = 0) hj0
  · have hn := hrepr.2 i hi
    obtain ⟨c, hc, hcfree, hccap⟩ := find?_healthy p _ hn.2.2.1
    have hi1 : i - 1 < l.length := by omega
    have hpv := hrepr.2 (i - 1) hi1
    have hprevEq : (l.getD i dummyNode).prev = (l.getD (i - 1) dummyNode).ptr := by
      have hx := hn.2.2.2.1
      rw [if_neg h0] at hx
      exact hx
    have hpne : (l.getD i dummyNode).prev ≠ 0 := by
      rw [hprevEq]; exact hpv.1
    have hwalk := walkHead_repr p l hrepr i fuel hi hfuel
    have hpn : KVNode.prevNode p (l.getD i dummyNode) =
        .ok (some (l.getD (i - 1) dummyNode)) := by
      rw [KVNode.prevNode, if_neg hpne, hprevEq, hpv.2.1]
    obtain ⟨c2, hc2, hc2free, hc2cap⟩ := find?_healthy p _ hpv.2.2.1
    have hbn := fromPtr_fields_lt p _ _ hn.2.1
    have hbpv := fromPtr_fields_lt p _ _ hpv.2.1
    obtain ⟨p1, hw1, hback1, hframe1, hfree1, hcap1⟩ :=
      KVNode.write_ok p
        { l.getD (i - 1) dummyNode with next := (l.getD i dummyNode).next }
        c2 hc2 hc2cap hbpv.1 hbn.2.1 hbpv.2.2.1 hbpv.2.2.2
    have hneipv : (l.getD i dummyNode).ptr ≠ (l.getD (i - 1) dummyNode).ptr :=
      repr_ptr_ne p l hrepr i (i - 1) hi hi1 (by omega)
    have hneipvx : (l.getD i dummyNode).ptr ≠
        ({ l.getD (i - 1) dummyNode with
            next := (l.getD i dummyNode).next } : KVNode).ptr := hneipv
    have hfindi : p1.find? (l.getD i dummyNode).ptr = some c := by
      rw [hframe1 _ hneipvx]; exact hc
    have hfreeEq := Pool.freeChunk_eq p1 (l.getD i dummyNode).ptr c hfindi
    refine ⟨p1.set (l.getD i dummyNode).ptr { c with free := true }, ?_, ?_, ?_, ?_, ?_⟩
    · rw [KVNode.delete, if_neg hpne, hwalk]
      simp only []
      rw [hpn]
      simp only []
      rw [hw1]
      simp only []
      rw [hfreeEq, if_neg h0]
    · rw [Pool.find?_set_self p1 _ _ c hfindi]
      rfl
    · intro h
      exact absurd h h0
    · intro _
      have hfr : (p1.set (l.getD i dummyNode).ptr { c with free := true }).find?
          (l.getD (i - 1) dummyNode).ptr = p1.find? (l.getD (i - 1) dummyNode).ptr :=
        Pool.find?_set_ne p1 _ _ _ (Ne.symm hneipv)
      rw [KVNode.fromPtr_congr p1 _ _ hfr]
      exact hback1
    · intro j hj hji hj1
      rw [if_neg h0] at hj1
      have hrj := hrepr.2 j hj
      have hnejn : (l.getD j dummyNode).ptr ≠ (l.getD i dummyNode).ptr :=
        repr_ptr_ne p l hrepr j i hj hi hji
      have hnejpv : (l.getD j dummyNode).ptr ≠
          ({ l.getD (i - 1) dummyNode with
              next := (l.getD i dummyNode).next } : KVNode).ptr :=
        repr_ptr_ne p l hrepr j (i - 1) hj hi1 hj1
      rw [KVNode.fromPtr_congr p1 _ _ (Pool.find?_set_ne p1 _ _ _ hnejn),
        KVNode.fromPtr_congr p _ _ (hframe1 _ hnejpv), hrj.2.1]

end KV

namespace KV

/-- Witness for the amended claim C3 on the concrete three-node list
`a (60) ↔ b (101) ↔ c (142)` of the counterexample state: deleting the
middle node `b` succeeds and returns the head pointer `60`. -/
theorem kvnode_delete_spec_witness :
    ListRepr c3Pool [⟨60, 0, 101, 0, 10⟩, c3NodeB, ⟨142, 101, 0, 40, 50⟩] ∧
    ∃ p', KVNode.delete c3Pool c3NodeB 100 = some (.ok (60, p')) := by
  have h := kvnode_delete_spec c3Pool
      [⟨60, 0, 101, 0, 10⟩, c3NodeB, ⟨142, 101, 0, 40, 50⟩] 1 100
      (by unfold ListRepr; decide) (by decide) (by decide)
  refine ⟨by unfold ListRepr; decide, ?_⟩
  obtain ⟨q, h1, _⟩ := h
  exact ⟨q, by simpa using h1⟩

end KV

namespace KV

/-! ## Root-chunk liveness preservation (amended claim C10) -/

theorem find?_append_some : ∀ (l1 l2 : List (ℕ × Chunk)) (q : ℕ) (c : ℕ × Chunk),
    l1.find? (fun pc => pc.1 = q) = some c →
    (l1 ++ l2).find? (fun pc => pc.1 = q) = some c
  | [], _, _, _, h => by simp [List.find?] at h
  | pc :: rest, l2, q, c, h => by
    by_cases hp : pc.1 = q
    · rw [List.find?_cons_of_pos _ (by simpa using hp)] at h
      rw [List.cons_append, List.find?_cons_of_pos _ (by simpa using hp)]
      exact h
    · rw [List.find?_cons_of_neg _ (by simpa using hp)] at h
      rw [List.cons_append, List.find?_cons_of_neg _ (by simpa using hp)]
      exact find?_append_some rest l2 q c h

theorem RootLive_def (p : Pool) (h : RootLive p) :
    ∃ c, p.find? 0 = some c ∧ c.free = false := by
  unfold RootLive at h
  cases hf : p.find? 0 with
  | none => rw [hf] at h; exact Option.noConfusion h
  | some c =>
    rw [hf] at h
    simp only [Option.map_some', Option.map_some, Option.some.injEq] at h
    exact ⟨c, rfl, h⟩

theorem RootLive_set (p : Pool) (ptr : ℕ) (c : Chunk) (h : RootLive p)
    (hc : ptr ≠ 0 ∨ c.free = false) : RootLive (p.set ptr c) := by
  obtain ⟨c0, h0, hfree⟩ := RootLive_def p h
  by_cases hp : ptr = 0
  · subst hp
    rcases hc with hne | hfc
    · exact absurd rfl hne
    · unfold RootLive
      rw [Pool.find?_set_self p 0 c c0 h0, Option.map_some', hfc]
  · unfold RootLive
    rw [Pool.find?_set_ne p ptr 0 c (fun he => hp he.symm), h0, Option.map_some', hfree]

theorem RootLive_alloc (p : Pool) (n : ℕ) (h : RootLive p) : RootLive (p.alloc n).1 := by
  unfold Pool.alloc
  split
  · rename_i pos c hpick
    exact RootLive_set p pos _ h (Or.inr rfl)
  · obtain ⟨c0, h0, hfree⟩ := RootLive_def p h
    unfold Pool.find? at h0
    cases hg : p.chunks.find? (fun pc => pc.1 = 0) with
    | none => rw [hg] at h0; exact Option.noConfusion h0
    | some pc =>
      rw [hg] at h0
      simp only [Option.map_some', Option.map_some, Option.some.injEq] at h0
      unfold RootLive Pool.find?
      rw [find?_append_some p.chunks _ 0 pc hg]
      simp only [Option.map_some', Option.map_some, Option.some.injEq]
      rw [h0]
      exact hfree

theorem RootLive_write (p p1 : Pool) (q : ℕ) (bs : Bytes) (h : RootLive p)
    (hw : p.write q bs = .ok p1) : RootLive p1 := by
  unfold Pool.write at hw
  split at hw
  · exact Except.noConfusion hw
  rename_i c hfc
  split at hw
  · exact Except.noConfusion hw
  simp only [Except.ok.injEq] at hw
  subst hw
  by_cases hq : q = 0
  · subst hq
    obtain ⟨c0, h0, hfree⟩ := RootLive_def p h
    rw [h0] at hfc
    cases hfc
    exact RootLive_set p 0 _ h (Or.inr hfree)
  · exact RootLive_set p q _ h (Or.inl hq)

theorem RootLive_writeAt (p p1 : Pool) (q : ℕ) (bs : Bytes) (off : ℕ) (h : RootLive p)
    (hw : p.writeAt q bs off = .ok p1) : RootLive p1 := by
  unfold Pool.writeAt at hw
  split at hw
  · exact Except.noConfusion hw
  rename_i c hfc
  split at hw
  · exact Except.noConfusion hw
  simp only [Except.ok.injEq] at hw
  subst hw
  by_cases hq : q = 0
  · subst hq
    obtain ⟨c0, h0, hfree⟩ := RootLive_def p h
    rw [h0] at hfc
    cases hfc
    exact RootLive_set p 0 _ h (Or.inr hfree)
  · exact RootLive_set p q _ h (Or.inl hq)

theorem RootLive_freeChunk (p p1 : Pool) (q : ℕ) (h : RootLive p) (hq : q ≠ 0)
    (hw : p.freeChunk q = .ok p1) : RootLive p1 := by
  unfold Pool.freeChunk at hw
  split at hw
  · exact Except.noConfusion hw
  simp only [Except.ok.injEq] at hw
  subst hw
  exact RootLive_set p q _ h (Or.inl hq)

theorem RootLive_allocAndWrite (p p1 : Pool) (bs : Bytes) (ptr : ℕ) (h : RootLive p)
    (hw : p.allocAndWrite bs = .ok (p1, ptr)) : RootLive p1 := by
  unfold Pool.allocAndWrite at hw
  simp only [] at hw
  split at hw
  · exact Except.noConfusion hw
  rename_i pw hww
  simp only [Except.ok.injEq, Prod.mk.injEq] at hw
  obtain ⟨hw1, _⟩ := hw
  subst hw1
  exact RootLive_write _ _ _ _ (RootLive_alloc p bs.len h) hww

theorem RootLive_nodeWrite (p p1 : Pool) (n : KVNode) (h : RootLive p)
    (hw : KVNode.write p n = .ok p1) : RootLive p1 :=
  RootLive_write p p1 n.ptr _ h hw

end KV

namespace KV

theorem RootLive_delete (p : Pool) (n : KVNode) (fuel : ℕ) (r : ℕ × Pool)
    (h : RootLive p) (hn : n.ptr ≠ 0)
    (hd : KVNode.delete p n fuel = some (.ok r)) : RootLive r.2 := by
  unfold KVNode.delete at hd
  split at hd
  · split at hd
    · exact absurd hd (by simp)
    rename_i p1 hfree
    split at hd
    · exact absurd hd (by simp)
    · simp only [Option.some.injEq, Except.ok.injEq] at hd
      subst hd
      exact RootLive_freeChunk p p1 n.ptr h hn hfree
    · rename_i nx hnx
      split at hd
      · exact absurd hd (by simp)
      rename_i p2 hw
      simp only [Option.some.injEq, Except.ok.injEq] at hd
      subst hd
      exact RootLive_nodeWrite p1 p2 _ (RootLive_freeChunk p p1 n.ptr h hn hfree) hw
  · split at hd
    · exact Option.noConfusion hd
    · exact absurd hd (by simp)
    rename_i head hwalk
    split at hd
    · exact Option.noConfusion hd
    · exact Option.noConfusion hd
    rename_i pv hpv
    split at hd
    · exact absurd hd (by simp)
    rename_i p1 hw
    split at hd
    · exact absurd hd (by simp)
    rename_i p2 hfree
    simp only [Option.some.injEq, Except.ok.injEq] at hd
    subst hd
    exact RootLive_freeChunk p1 p2 n.ptr (RootLive_nodeWrite p p1 _ h hw) hn hfree

theorem RootLive_setValue (p : Pool) (n : KVNode) (v old : ℕ) (n2 : KVNode) (p1 : Pool)
    (h : RootLive p) (hs : KVNode.setValue p n v = .ok (old, n2, p1)) :
    RootLive p1 ∧ old = n.value := by
  unfold KVNode.setValue at hs
  split at hs
  · exact Except.noConfusion hs
  simp only [] at hs
  split at hs
  · exact Except.noConfusion hs
  rename_i p2 hw
  simp only [Except.ok.injEq, Prod.mk.injEq] at hs
  obtain ⟨ho, _, hp⟩ := hs
  subst hp
  exact ⟨RootLive_nodeWrite p p2 _ h hw, ho.symm⟩

end KV

namespace KV

/-- A successful `Store` whose key scan matches an existing node with a
non-zero `Value` field leaves the root chunk live. -/
theorem RootLive_hmStore_matched (p : Pool) (key value : Bytes) (fuel : ℕ) (p' : Pool)
    (n : KVNode) (h : RootLive p)
    (hm : storeMatchedNode p key value fuel = some n) (hv : n.value ≠ 0)
    (hs : hmStore p key value fuel = some (.ok p')) : RootLive p' := by
  unfold storeMatchedNode at hm
  unfold hmStore at hs
  split at hs
  · exact absurd hs (by simp)
  rename_i p1 vc halloc
  rw [halloc] at hm
  simp only [] at hm
  split at hs
  · exact absurd hs (by simp)
  rename_i root hroot
  rw [hroot] at hm
  simp only [] at hm
  split at hs
  · exact Option.noConfusion hs
  · exact absurd hs (by simp)
  rename_i ap i e heqfb
  rw [heqfb] at hm
  simp only [] at hm
  split at hm
  · exact Option.noConfusion hm
  rename_i he0
  split at hm
  · exact Option.noConfusion hm
  rename_i head hhead
  split at hm
  case _ r heqfi =>
    subst hm
    unfold bupsert at hs
    rw [if_neg he0, hhead] at hs
    simp only [] at hs
    rw [heqfi] at hs
    simp only [] at hs
    split at hs
    · exact absurd hs (by simp)
    rename_i old n2 pA hsv
    obtain ⟨hlA, hold⟩ :=
      RootLive_setValue p1 n vc old n2 pA (RootLive_allocAndWrite p p1 value vc h halloc) hsv
    split at hs
    · exact absurd hs (by simp)
    split at hs
    · exact absurd hs (by simp)
    rename_i p2 hfc
    simp only [Option.some.injEq, Except.ok.injEq] at hs
    subst hs
    exact RootLive_freeChunk pA p2 old hlA (by rw [hold]; exact hv) hfc
  case _ =>
    exact Option.noConfusion hm

end KV

namespace KV

/-- A successful `Delete` whose key scan matches a node with a non-zero own
pointer leaves the root chunk live. -/
theorem RootLive_hmDelete_matched (p : Pool) (key : Bytes) (fuel : ℕ) (p' : Pool)
    (n : KVNode) (h : RootLive p)
    (hm : deleteMatchedNode p key fuel = some n) (hn : n.ptr ≠ 0)
    (hd : hmDelete p key fuel = some (.ok p')) : RootLive p' := by
  unfold deleteMatchedNode at hm
  unfold hmDelete at hd
  split at hd
  · exact absurd hd (by simp)
  rename_i root hroot
  rw [hroot] at hm
  simp only [] at hm
  split at hd
  · exact Option.noConfusion hd
  · exact absurd hd (by simp)
  rename_i ap i e heqfb
  rw [heqfb] at hm
  simp only [] at hm
  split at hd
  · exact absurd hd (by simp)
  rename_i he0
  rw [if_neg he0] at hm
  split at hd
  · exact absurd hd (by simp)
  rename_i head hhead
  rw [hhead] at hm
  simp only [] at hm
  split at hd
  · exact Option.noConfusion hd
  · exact absurd hd (by simp)
  · exact absurd hd (by simp)
  rename_i node hfi
  rw [hfi] at hm
  simp only [Option.some.injEq] at hm
  subst hm
  split at hd
  · exact Option.noConfusion hd
  · exact absurd hd (by simp)
  rename_i newHead p1 hdel
  have hl1 : RootLive p1 := RootLive_delete p node fuel (newHead, p1) h hn hdel
  split at hd
  · exact absurd hd (by simp)
  rename_i p2 hew
  simp only [Option.some.injEq, Except.ok.injEq] at hd
  subst hd
  exact RootLive_writeAt p1 p2 ap _ _ hl1 hew

end KV

namespace KV

theorem newHashMap_nonempty (p : Pool) (r : Pool × ℕ) (hp : p.size ≠ 0)
    (h : newHashMap p = .ok r) : r = (p, 0) := by
  unfold newHashMap at h
  rw [if_neg hp] at h
  split at h
  · exact Except.noConfusion h
  split at h
  · exact Except.noConfusion h
  simp only [Except.ok.injEq] at h
  exact h.symm

/-- C10 (amended).  `NewHashMap` places the root bucket array at chunk
pointer `0`: over the empty pool it allocates it as the pool's only chunk at
byte offset `0`, writing the 128 zeroed entries; over any non-empty pool it
loads exactly the chunk at pointer `0` and touches nothing.  No operation
relocates chunks (claim C8), but "no hash-map operation ever frees that
chunk" only holds conditionally: a successful `Store` whose key scan matched
a node with non-zero `Value`, and a successful `Delete` whose matched node
has a non-zero own pointer, leave the root chunk live; with a zero `Value`
the `Store` frees chunk 0 itself (see the counterexample). -/
theorem hashMap_root_chunk_spec :
    (newHashMap emptyPool = .ok (hm0, 0) ∧
      hm0.chunks.map Prod.fst = [0] ∧ RootLive hm0 ∧
      readBuckets hm0 0 = .ok emptyEntries) ∧
    (∀ (p : Pool) (r : Pool × ℕ), p.size ≠ 0 → newHashMap p = .ok r → r = (p, 0)) ∧
    (∀ (p : Pool) (key value : Bytes) (fuel : ℕ) (p' : Pool) (n : KVNode),
      RootLive p → storeMatchedNode p key value fuel = some n → n.value ≠ 0 →
      hmStore p key value fuel = some (.ok p') → RootLive p') ∧
    (∀ (p : Pool) (key : Bytes) (fuel : ℕ) (p' : Pool) (n : KVNode),
      RootLive p → deleteMatchedNode p key fuel = some n → n.ptr ≠ 0 →
      hmDelete p key fuel = some (.ok p') → RootLive p') :=
  ⟨⟨by decide, by decide, by unfold RootLive; decide, by decide⟩,
    fun p r hp h => newHashMap_nonempty p r hp h,
    fun p key value fuel p' n h hm hv hs =>
      RootLive_hmStore_matched p key value fuel p' n h hm hv hs,
    fun p key fuel p' n h hm hn hd =>
      RootLive_hmDelete_matched p key fuel p' n h hm hn hd⟩

/-- Witness for the amended claim C10: overwriting the stored key
`[34, 119]` on a healthy one-key hash map leaves the root chunk live. -/
theorem hashMap_root_chunk_spec_witness :
    RootLive (okPool (hmStore c10W c2KA (.ofList [9]) 100)) := by
  exact hashMap_root_chunk_spec.2.2.1 c10W c2KA (.ofList [9]) 100
    (okPool (hmStore c10W c2KA (.ofList [9]) 100))
    ⟨1182, 0, 0, 1171, 1161⟩
    (by unfold RootLive; decide) (by decide) (by decide) (by decide)

end KV

namespace KV

/-! ## Helper lemmas for the amended claim C4 -/

theorem sub32_eq (a b : ℕ) (hb : b ≤ a) (ha : a < 2 ^ 32) : sub32 a b = a - b := by
  unfold sub32
  omega

theorem u32ofInt_eq (k : ℕ) (hk : k < 2 ^ 32) : u32ofInt (k : ℤ) = k := by
  unfold u32ofInt
  rw [Int.emod_eq_of_lt (by positivity) (by exact_mod_cast hk)]
  exact Int.toNat_natCast k

theorem objSize_aux (bs : List BlockMeta) : ∀ acc : ℤ,
    bs.foldl (fun s b => s + (b.End : ℤ)) acc = acc + (sumEnds bs : ℤ) := by
  induction bs with
  | nil => intro acc; simp [sumEnds]
  | cons b rest ih =>
    intro acc
    rw [List.foldl_cons, ih (acc + (b.End : ℤ))]
    have hse : sumEnds (b :: rest) = b.End + sumEnds rest := by
      simp [sumEnds]
    rw [hse]
    push_cast
    ring

theorem objSize_eq (o : Obj) : objSize o = (sumEnds o.blocks : ℤ) := by
  unfold objSize
  rw [objSize_aux o.blocks 0, zero_add]

theorem sumEnds_take_succ (bs : List BlockMeta) (i : ℕ) (h : i < bs.length) :
    sumEnds (bs.take (i + 1)) = sumEnds (bs.take i) + (bs.getD i dummyBlock).End := by
  unfold sumEnds
  rw [List.take_succ, List.getElem?_eq_getElem h]
  simp only [Option.toList_some, List.map_append, List.map_cons, List.map_nil,
    List.sum_append, List.sum_cons, List.sum_nil, add_zero]
  rw [List.getD_eq_getElem bs dummyBlock h]

theorem sumEnds_take_le (bs : List BlockMeta) (i : ℕ) :
    sumEnds (bs.take i) ≤ sumEnds bs := by
  conv_rhs => rw [← List.take_append_drop i bs]
  unfold sumEnds
  rw [List.map_append, List.sum_append]
  omega

theorem sumOff_le_total (o : Obj) (hc : cursorWF o) : sumOff o ≤ sumEnds o.blocks := by
  obtain ⟨hidx, hoff, _⟩ := hc
  unfold sumOff
  have h1 := sumEnds_take_succ o.blocks o.posBlockIdx hidx
  have h2 := sumEnds_take_le o.blocks (o.posBlockIdx + 1)
  omega

theorem sumOff_total_at_end (o : Obj) (hc : cursorWF o)
    (h : sumOff o = sumEnds o.blocks) :
    o.posBlockOff = (o.blocks.getD o.posBlockIdx dummyBlock).End := by
  obtain ⟨hidx, hoff, _⟩ := hc
  unfold sumOff at h
  have h1 := sumEnds_take_succ o.blocks o.posBlockIdx hidx
  have h2 := sumEnds_take_le o.blocks (o.posBlockIdx + 1)
  omega

end KV

namespace KV

/-- Forward walk within bounds: `seekFromRelative` with a non-negative
distance that stays within the object's size succeeds, advances the cursor
by exactly that distance, and keeps the block chain. -/
theorem seekForward_ok : ∀ (fuel : ℕ) (o : Obj) (k : ℕ),
    SeekWF o → sumOff o + k ≤ sumEnds o.blocks →
    o.blocks.length - o.posBlockIdx + 2 ≤ fuel →
    ∃ o', seekForward o (k : ℤ) fuel = some (.ok (o.offset + k), o') ∧
      o'.blocks = o.blocks ∧ sumOff o' = sumOff o + k ∧
      o'.offset = o.offset + k ∧ SeekWF o'
  | 0, o, k, hwf, hk, hfuel => by omega
  | fuel + 1, o, k, hwf, hk, hfuel => by
    obtain ⟨⟨hbwf, hcwf⟩, heager⟩ := hwf
    obtain ⟨hne, hEndlt, hNext, hpos⟩ := hbwf
    obtain ⟨hidx, hoff, hofs⟩ := hcwf
    have hbm : o.blocks.get? o.posBlockIdx =
        some (o.blocks.getD o.posBlockIdx dummyBlock) := by
      rw [List.get?_eq_getElem?, List.getElem?_eq_getElem hidx,
        List.getD_eq_getElem _ _ hidx]
    have hts := sumEnds_take_succ o.blocks o.posBlockIdx hidx
    have htl := sumEnds_take_le o.blocks (o.posBlockIdx + 1)
    rw [seekForward, if_neg (by omega), hbm]
    simp only []
    by_cases hk0 : k = 0
    · subst hk0
      rw [if_pos (by simp)]
      exact ⟨o, by norm_num, rfl, by omega, by push_cast; ring,
        ⟨⟨⟨hne, hEndlt, hNext, hpos⟩, hidx, hoff, hofs⟩, heager⟩⟩
    rw [if_neg (show ¬((k : ℤ) = 0) by simpa using hk0)]
    by_cases hend : o.posBlockOff = (o.blocks.getD o.posBlockIdx dummyBlock).End
    · have htail := heager hend
      have htake : o.blocks.take (o.posBlockIdx + 1) = o.blocks := by
        rw [htail]
        simp
      exfalso
      unfold sumOff at hk
      rw [hend] at hk
      rw [htake] at hts
      omega
    rw [if_neg hend]
    rw [sub32_eq _ _ hoff (hEndlt _ hidx)]
    by_cases hA : k < (o.blocks.getD o.posBlockIdx dummyBlock).End - o.posBlockOff
    · -- the whole distance fits inside the current block
      have hgt : (((o.blocks.getD o.posBlockIdx dummyBlock).End - o.posBlockOff : ℕ) : ℤ) >
          (k : ℤ) := by exact_mod_cast hA
      rw [if_pos hgt, u32ofInt_eq k (by have := hEndlt _ hidx; omega)]
      have hbnd : ¬(o.posBlockOff + k = (o.blocks.getD o.posBlockIdx dummyBlock).End ∧
          (o.blocks.getD o.posBlockIdx dummyBlock).Next ≠ 0) :=
        fun hcon => absurd hcon.1 (by omega)
      rw [if_neg hbnd]
      have hz : (k : ℤ) - (k : ℕ) = 0 := by omega
      rw [if_pos hz]
      refine ⟨_, rfl, rfl, ?_, rfl, ?_⟩
      · unfold sumOff
        simp only []
        omega
      · refine ⟨⟨⟨hne, hEndlt, hNext, hpos⟩, hidx,
          show o.posBlockOff + k ≤ (o.blocks.getD o.posBlockIdx dummyBlock).End by omega,
          ?_⟩, ?_⟩
        · show o.offset + (k : ℤ) = _
          unfold sumOff
          simp only []
          unfold sumOff at hofs
          push_cast
          omega
        · intro hcon
          have : o.posBlockOff + k = (o.blocks.getD o.posBlockIdx dummyBlock).End := hcon
          omega
    · -- the distance consumes the rest of the current block
      have hgt : ¬((((o.blocks.getD o.posBlockIdx dummyBlock).End - o.posBlockOff : ℕ) : ℤ) >
          (k : ℤ)) := by exact_mod_cast hA
      rw [if_neg hgt]
      by_cases hnx : (o.blocks.getD o.posBlockIdx dummyBlock).Next = 0
      · -- the current block is the tail
        have htail : o.posBlockIdx + 1 = o.blocks.length := (hNext _ hidx).mp hnx
        have htake : o.blocks.take (o.posBlockIdx + 1) = o.blocks := by
          rw [htail]
          simp
        have hbnd : ¬(o.posBlockOff +
            ((o.blocks.getD o.posBlockIdx dummyBlock).End - o.posBlockOff) =
              (o.blocks.getD o.posBlockIdx dummyBlock).End ∧
            (o.blocks.getD o.posBlockIdx dummyBlock).Next ≠ 0) :=
          fun hcon => hcon.2 hnx
        rw [if_neg hbnd]
        have hkle : k = (o.blocks.getD o.posBlockIdx dummyBlock).End - o.posBlockOff := by
          unfold sumOff at hk
          rw [htake] at hts
          omega
        have hz : (k : ℤ) -
            ((o.blocks.getD o.posBlockIdx dummyBlock).End - o.posBlockOff : ℕ) = 0 := by
          omega
        rw [if_pos hz, hkle]
        refine ⟨_, rfl, rfl, ?_, rfl, ?_⟩
        · unfold sumOff
          simp only []
          omega
        · refine ⟨⟨⟨hne, hEndlt, hNext, hpos⟩, hidx,
            show o.posBlockOff + _ ≤ (o.blocks.getD o.posBlockIdx dummyBlock).End by omega,
            ?_⟩, ?_⟩
          · show o.offset + _ = _
            unfold sumOff
            simp only []
            unfold sumOff at hofs
            push_cast
            omega
          · intro _
            exact htail
      · -- a successor block exists: the cursor advances eagerly
        have hidx1 : o.posBlockIdx + 1 < o.blocks.length := by
          have h2 : ¬(o.posBlockIdx + 1 = o.blocks.length) :=
            fun hcon => hnx ((hNext _ hidx).mpr hcon)
          omega
        have hbnd : (o.posBlockOff +
            ((o.blocks.getD o.posBlockIdx dummyBlock).End - o.posBlockOff) =
              (o.blocks.getD o.posBlockIdx dummyBlock).End ∧
            (o.blocks.getD o.posBlockIdx dummyBlock).Next ≠ 0) :=
          ⟨by omega, hnx⟩
        rw [if_pos hbnd]
        by_cases hrem : k = (o.blocks.getD o.posBlockIdx dummyBlock).End - o.posBlockOff
        · -- the distance ends exactly at the boundary
          have hz : (k : ℤ) -
              ((o.blocks.getD o.posBlockIdx dummyBlock).End - o.posBlockOff : ℕ) = 0 := by
            omega
          rw [if_pos hz, hrem]
          refine ⟨_, rfl, rfl, ?_, rfl, ?_⟩
          · unfold sumOff
            simp only []
            rw [sumEnds_take_succ _ _ hidx]
            omega
          · refine ⟨⟨⟨hne, hEndlt, hNext, hpos⟩, hidx1, Nat.zero_le _, ?_⟩, ?_⟩
            · show o.offset + _ = _
              unfold sumOff
              simp only []
              rw [sumEnds_take_succ _ _ hidx]
              unfold sumOff at hofs
              push_cast
              omega
            · show (0 : ℕ) = (o.blocks.getD (o.posBlockIdx + 1) dummyBlock).End →
                o.posBlockIdx + 1 + 1 = o.blocks.length
              intro hcon
              by_contra hcon2
              have hlt : o.posBlockIdx + 1 + 1 < o.blocks.length := by omega
              have := hpos (o.posBlockIdx + 1) hlt
              omega
        · -- the walk continues in the following blocks
          have hz : ¬((k : ℤ) -
              ((o.blocks.getD o.posBlockIdx dummyBlock).End - o.posBlockOff : ℕ) = 0) := by
            omega
          rw [if_neg hz]
          have hcast : (k : ℤ) -
              ((o.blocks.getD o.posBlockIdx dummyBlock).End - o.posBlockOff : ℕ) =
              ((k - ((o.blocks.getD o.posBlockIdx dummyBlock).End - o.posBlockOff) : ℕ) : ℤ) := by
            omega
          rw [hcast]
          obtain ⟨o'', heq, hblocks, hsum, hofs2, hwf2⟩ :=
            seekForward_ok fuel
              ⟨o.blocks, o.posBlockIdx + 1, 0,
                o.offset + ((o.blocks.getD o.posBlockIdx dummyBlock).End - o.posBlockOff : ℕ)⟩
              (k - ((o.blocks.getD o.posBlockIdx dummyBlock).End - o.posBlockOff))
              ⟨⟨⟨hne, hEndlt, hNext, hpos⟩, hidx1, Nat.zero_le _, by
                show o.offset + _ = _
                unfold sumOff
                simp only []
                rw [sumEnds_take_succ _ _ hidx]
                unfold sumOff at hofs
                push_cast
                omega⟩, by
                show (0 : ℕ) = (o.blocks.getD (o.posBlockIdx + 1) dummyBlock).End →
                  o.posBlockIdx + 1 + 1 = o.blocks.length
                intro hcon
                by_contra hcon2
                have hlt : o.posBlockIdx + 1 + 1 < o.blocks.length := by omega
                have := hpos (o.posBlockIdx + 1) hlt
                omega⟩
              (by
                show sumOff _ + _ ≤ _
                unfold sumOff
                simp only []
                rw [sumEnds_take_succ _ _ hidx]
                unfold sumOff at hk
                omega)
              (by
                show o.blocks.length - (o.posBlockIdx + 1) + 2 ≤ fuel
                omega)
          refine ⟨o'', ?_, hblocks, ?_, ?_, hwf2⟩
          · rw [heq]
            have harith : (⟨o.blocks, o.posBlockIdx + 1, 0,
                o.offset + ((o.blocks.getD o.posBlockIdx dummyBlock).End - o.posBlockOff : ℕ)⟩ :
                  Obj).offset +
                ((k - ((o.blocks.getD o.posBlockIdx dummyBlock).End - o.posBlockOff) : ℕ) : ℤ) =
                o.offset + (k : ℤ) := by
              show o.offset + _ + _ = _
              omega
            rw [harith]
          · rw [hsum]
            show sumOff _ + _ = _
            unfold sumOff
            simp only []
            rw [sumEnds_take_succ _ _ hidx]
            omega
          · rw [hofs2]
            show o.offset + _ + _ = _
            omega

end KV

namespace KV

/-- A positive remaining distance at a cursor parked on its block's `End`
makes the forward walk report `io.EOF` immediately. -/
theorem seekForward_tail_eof (fuel : ℕ) (o : Obj) (k : ℕ) (hk : 0 < k)
    (hidx : o.posBlockIdx < o.blocks.length)
    (hend : o.posBlockOff = (o.blocks.getD o.posBlockIdx dummyBlock).End)
    (hf : 1 ≤ fuel) :
    seekForward o (k : ℤ) fuel = some (.error .eof, o) := by
  obtain ⟨f, rfl⟩ : ∃ f, fuel = f + 1 := ⟨fuel - 1, by omega⟩
  have hbm : o.blocks.get? o.posBlockIdx =
      some (o.blocks.getD o.posBlockIdx dummyBlock) := by
    rw [List.get?_eq_getElem?, List.getElem?_eq_getElem hidx,
      List.getD_eq_getElem _ _ hidx]
  rw [seekForward, if_neg (by omega), hbm]
  simp only []
  rw [if_neg (show ¬((k : ℤ) = 0) by omega), if_pos hend]

/-- Forward walk past the end: under `SeekWF`, a distance that overshoots
the object's size yields `io.EOF` and leaves the block chain unchanged. -/
theorem seekForward_eof : ∀ (fuel : ℕ) (o : Obj) (k : ℕ),
    SeekWF o → sumEnds o.blocks < sumOff o + k →
    o.blocks.length - o.posBlockIdx + 2 ≤ fuel →
    ∃ o', seekForward o (k : ℤ) fuel = some (.error .eof, o') ∧ o'.blocks = o.blocks
  | 0, o, k, hwf, hk, hfuel => by omega
  | fuel + 1, o, k, hwf, hk, hfuel => by
    obtain ⟨⟨hbwf, hcwf⟩, heager⟩ := hwf
    obtain ⟨hne, hEndlt, hNext, hpos⟩ := hbwf
    obtain ⟨hidx, hoff, hofs⟩ := hcwf
    have hbm : o.blocks.get? o.posBlockIdx =
        some (o.blocks.getD o.posBlockIdx dummyBlock) := by
      rw [List.get?_eq_getElem?, List.getElem?_eq_getElem hidx,
        List.getD_eq_getElem _ _ hidx]
    have hts := sumEnds_take_succ o.blocks o.posBlockIdx hidx
    have htl := sumEnds_take_le o.blocks (o.posBlockIdx + 1)
    have hk0 : k ≠ 0 := by
      intro hcon
      subst hcon
      have := sumOff_le_total o ⟨hidx, hoff, hofs⟩
      omega
    rw [seekForward, if_neg (by omega), hbm]
    simp only []
    rw [if_neg (show ¬((k : ℤ) = 0) by simpa using hk0)]
    by_cases hend : o.posBlockOff = (o.blocks.getD o.posBlockIdx dummyBlock).End
    · rw [if_pos hend]
      exact ⟨o, rfl, rfl⟩
    rw [if_neg hend]
    rw [sub32_eq _ _ hoff (hEndlt _ hidx)]
    by_cases hA : k < (o.blocks.getD o.posBlockIdx dummyBlock).End - o.posBlockOff
    · exfalso
      unfold sumOff at hk
      omega
    have hgt : ¬((((o.blocks.getD o.posBlockIdx dummyBlock).End - o.posBlockOff : ℕ) : ℤ) >
        (k : ℤ)) := by exact_mod_cast hA
    rw [if_neg hgt]
    have hkgt : (o.blocks.getD o.posBlockIdx dummyBlock).End - o.posBlockOff < k := by
      by_contra hcon
      have hke : k = (o.blocks.getD o.posBlockIdx dummyBlock).End - o.posBlockOff := by
        omega
      unfold sumOff at hk
      omega
    have hz : ¬((k : ℤ) -
        ((o.blocks.getD o.posBlockIdx dummyBlock).End - o.posBlockOff : ℕ) = 0) := by
      omega
    have hcast : (k : ℤ) -
        ((o.blocks.getD o.posBlockIdx dummyBlock).End - o.posBlockOff : ℕ) =
        ((k - ((o.blocks.getD o.posBlockIdx dummyBlock).End - o.posBlockOff) : ℕ) : ℤ) := by
      omega
    by_cases hnx : (o.blocks.getD o.posBlockIdx dummyBlock).Next = 0
    · -- tail: the walk parks at the tail's end and the next step errors
      have hbnd : ¬(o.posBlockOff +
          ((o.blocks.getD o.posBlockIdx dummyBlock).End - o.posBlockOff) =
            (o.blocks.getD o.posBlockIdx dummyBlock).End ∧
          (o.blocks.getD o.posBlockIdx dummyBlock).Next ≠ 0) :=
        fun hcon => hcon.2 hnx
      rw [if_neg hbnd, if_neg hz, hcast]
      refine ⟨_, seekForward_tail_eof fuel _ _ (by omega)
        (show o.posBlockIdx < o.blocks.length from hidx)
        (show o.posBlockOff + _ = (o.blocks.getD o.posBlockIdx dummyBlock).End by omega)
        (by omega), rfl⟩
    · -- a successor exists: advance and recurse
      have hidx1 : o.posBlockIdx + 1 < o.blocks.length := by
        have h2 : ¬(o.posBlockIdx + 1 = o.blocks.length) :=
          fun hcon => hnx ((hNext _ hidx).mpr hcon)
        omega
      have hbnd : (o.posBlockOff +
          ((o.blocks.getD o.posBlockIdx dummyBlock).End - o.posBlockOff) =
            (o.blocks.getD o.posBlockIdx dummyBlock).End ∧
          (o.blocks.getD o.posBlockIdx dummyBlock).Next ≠ 0) :=
        ⟨by omega, hnx⟩
      rw [if_pos hbnd, if_neg hz, hcast]
      obtain ⟨o'', heq, hblocks⟩ :=
        seekForward_eof fuel
          ⟨o.blocks, o.posBlockIdx + 1, 0,
            o.offset + ((o.blocks.getD o.posBlockIdx dummyBlock).End - o.posBlockOff : ℕ)⟩
          (k - ((o.blocks.getD o.posBlockIdx dummyBlock).End - o.posBlockOff))
          ⟨⟨⟨hne, hEndlt, hNext, hpos⟩, hidx1, Nat.zero_le _, by
            show o.offset + _ = _
            unfold sumOff
            simp only []
            rw [sumEnds_take_succ _ _ hidx]
            unfold sumOff at hofs
            push_cast
            omega⟩, by
            show (0 : ℕ) = (o.blocks.getD (o.posBlockIdx + 1) dummyBlock).End →
              o.posBlockIdx + 1 + 1 = o.blocks.length
            intro hcon
            by_contra hcon2
            have hlt : o.posBlockIdx + 1 + 1 < o.blocks.length := by omega
            have := hpos (o.posBlockIdx + 1) hlt
            omega⟩
          (by
            show sumEnds o.blocks < sumOff _ + _
            unfold sumOff
            simp only []
            rw [sumEnds_take_succ _ _ hidx]
            unfold sumOff at hk
            omega)
          (by
            show o.blocks.length - (o.posBlockIdx + 1) + 2 ≤ fuel
            omega)
      exact ⟨o'', heq, hblocks⟩

end KV

namespace KV

/-- A positive remaining distance at the very start of the object makes the
backward walk report `io.EOF` immediately. -/
theorem seekBack_zero_eof (fuel : ℕ) (o : Obj) (k : ℕ) (hk : 0 < k)
    (hoff : o.posBlockOff = 0) (hidx : o.posBlockIdx = 0) (hf : 1 ≤ fuel) :
    seekBack o (k : ℤ) fuel = some (.error .eof, o) := by
  obtain ⟨f, rfl⟩ : ∃ f, fuel = f + 1 := ⟨fuel - 1, by omega⟩
  rw [seekBack, if_neg (show ¬((k : ℤ) = 0) by omega), if_pos ⟨hoff, hidx⟩]

/-- Backward walk within bounds: `seekFromRelativeBack` with a distance of
at most the cursor's absolute position succeeds, moves the cursor back by
exactly that distance, and keeps the block chain.  (The landing state is
only `SeekWFCore`: a backward walk may park the cursor exactly at the end
of a non-tail block.) -/
theorem seekBack_ok : ∀ (fuel : ℕ) (o : Obj) (k : ℕ),
    SeekWFCore o → k ≤ sumOff o → 2 * o.posBlockIdx + 2 ≤ fuel →
    ∃ o', seekBack o (k : ℤ) fuel = some (.ok (o.offset - k), o') ∧
      o'.blocks = o.blocks ∧ sumOff o' = sumOff o - k ∧
      o'.offset = o.offset - k ∧ SeekWFCore o'
  | 0, o, k, hwf, hk, hfuel => by omega
  | fuel + 1, o, k, hwf, hk, hfuel => by
    obtain ⟨⟨hne, hEndlt, hNext, hpos⟩, hidx, hoff, hofs⟩ := hwf
    have hts := sumEnds_take_succ o.blocks o.posBlockIdx hidx
    have hofflt : o.posBlockOff < 2 ^ 32 := lt_of_le_of_lt hoff (hEndlt _ hidx)
    rw [seekBack]
    by_cases hk0 : k = 0
    · subst hk0
      rw [if_pos (by simp)]
      exact ⟨o, by norm_num, rfl, by omega, by push_cast; ring,
        ⟨⟨hne, hEndlt, hNext, hpos⟩, hidx, hoff, hofs⟩⟩
    rw [if_neg (show ¬((k : ℤ) = 0) by simpa using hk0)]
    by_cases hzz : o.posBlockOff = 0 ∧ o.posBlockIdx = 0
    · exfalso
      unfold sumOff at hk
      rw [hzz.2, hzz.1] at hk
      simp only [List.take_zero] at hk
      have hs0 : sumEnds ([] : List BlockMeta) = 0 := rfl
      rw [hs0] at hk
      omega
    rw [if_neg hzz]
    simp only []
    by_cases hC : k < o.posBlockOff
    · -- the distance stays inside the current block
      have hgt : ((o.posBlockOff : ℕ) : ℤ) > (k : ℤ) := by exact_mod_cast hC
      rw [if_pos hgt, u32ofInt_eq k (by omega),
        sub32_eq o.posBlockOff k (by omega) hofflt]
      have hbnd : ¬(o.posBlockOff - k = 0 ∧ o.posBlockIdx ≠ 0) :=
        fun hcon => absurd hcon.1 (by omega)
      rw [if_neg hbnd]
      have hz : (k : ℤ) - (k : ℕ) = 0 := by omega
      rw [if_pos hz]
      refine ⟨_, rfl, rfl, ?_, rfl, ?_⟩
      · unfold sumOff
        simp only []
        omega
      · refine ⟨⟨hne, hEndlt, hNext, hpos⟩, hidx,
          show o.posBlockOff - k ≤ (o.blocks.getD o.posBlockIdx dummyBlock).End by omega,
          ?_⟩
        show o.offset - (k : ℤ) = _
        unfold sumOff
        simp only []
        unfold sumOff at hofs
        push_cast
        omega
    · -- the distance consumes the whole in-block offset
      have hgt : ¬(((o.posBlockOff : ℕ) : ℤ) > (k : ℤ)) := by exact_mod_cast hC
      rw [if_neg hgt, sub32_eq o.posBlockOff o.posBlockOff le_rfl hofflt]
      have hzero : o.posBlockOff - o.posBlockOff = 0 := by omega
      rw [hzero]
      by_cases hi0 : o.posBlockIdx = 0
      · -- already in the first block
        have hbnd : ¬((0 : ℕ) = 0 ∧ o.posBlockIdx ≠ 0) := fun hcon => hcon.2 hi0
        rw [if_neg hbnd]
        have hke : k = o.posBlockOff := by
          unfold sumOff at hk
          rw [hi0] at hk
          simp only [List.take_zero] at hk
          have hs0 : sumEnds ([] : List BlockMeta) = 0 := rfl
          rw [hs0] at hk
          omega
        have hz : (k : ℤ) - (o.posBlockOff : ℕ) = 0 := by omega
        rw [if_pos hz, hke]
        refine ⟨_, rfl, rfl, ?_, rfl, ?_⟩
        · unfold sumOff
          simp only []
          omega
        · refine ⟨⟨hne, hEndlt, hNext, hpos⟩, hidx, Nat.zero_le _, ?_⟩
          show o.offset - _ = _
          unfold sumOff
          simp only []
          unfold sumOff at hofs
          push_cast
          omega
      · -- jump to the previous block
        have hbnd : ((0 : ℕ) = 0 ∧ o.posBlockIdx ≠ 0) := ⟨rfl, hi0⟩
        rw [if_pos hbnd]
        have hidxm : o.posBlockIdx - 1 < o.blocks.length := by omega
        have hbm : o.blocks.get? (o.posBlockIdx - 1) =
            some (o.blocks.getD (o.posBlockIdx - 1) dummyBlock) := by
          rw [List.get?_eq_getElem?, List.getElem?_eq_getElem hidxm,
            List.getD_eq_getElem _ _ hidxm]
        rw [hbm]
        simp only []
        have htsm := sumEnds_take_succ o.blocks (o.posBlockIdx - 1) hidxm
        have hidxs : o.posBlockIdx - 1 + 1 = o.posBlockIdx := by omega
        rw [hidxs] at htsm
        by_cases hrem : k = o.posBlockOff
        · -- the distance ends exactly at the block boundary: park on it
          have hz : (k : ℤ) - (o.posBlockOff : ℕ) = 0 := by omega
          rw [if_pos hz, hrem]
          refine ⟨_, rfl, rfl, ?_, rfl, ?_⟩
          · unfold sumOff
            simp only []
            omega
          · refine ⟨⟨hne, hEndlt, hNext, hpos⟩, hidxm, le_rfl, ?_⟩
            show o.offset - _ = _
            unfold sumOff
            simp only []
            unfold sumOff at hofs
            push_cast
            omega
        · -- keep walking backwards from the previous block's end
          have hz : ¬((k : ℤ) - (o.posBlockOff : ℕ) = 0) := by omega
          rw [if_neg hz]
          have hcast : (k : ℤ) - (o.posBlockOff : ℕ) =
              ((k - o.posBlockOff : ℕ) : ℤ) := by omega
          rw [hcast]
          obtain ⟨o'', heq, hblocks, hsum, hofs2, hwf2⟩ :=
            seekBack_ok fuel
              ⟨o.blocks, o.posBlockIdx - 1,
                (o.blocks.getD (o.posBlockIdx - 1) dummyBlock).End,
                o.offset - (o.posBlockOff : ℕ)⟩
              (k - o.posBlockOff)
              ⟨⟨hne, hEndlt, hNext, hpos⟩, hidxm, le_rfl, by
                show o.offset - _ = _
                unfold sumOff
                simp only []
                unfold sumOff at hofs
                push_cast
                omega⟩
              (by
                show k - o.posBlockOff ≤ sumOff _
                unfold sumOff
                simp only []
                unfold sumOff at hk
                omega)
              (by
                show 2 * (o.posBlockIdx - 1) + 2 ≤ fuel
                omega)
          refine ⟨o'', ?_, hblocks, ?_, ?_, hwf2⟩
          · rw [heq]
            have harith : (⟨o.blocks, o.posBlockIdx - 1,
                (o.blocks.getD (o.posBlockIdx - 1) dummyBlock).End,
                o.offset - (o.posBlockOff : ℕ)⟩ : Obj).offset -
                ((k - o.posBlockOff : ℕ) : ℤ) = o.offset - (k : ℤ) := by
              show o.offset - _ - _ = _
              omega
            rw [harith]
          · rw [hsum]
            show sumOff _ - _ = _
            unfold sumOff
            simp only []
            unfold sumOff at hk
            omega
          · rw [hofs2]
            show o.offset - _ - _ = _
            omega

end KV

namespace KV

/-- Backward walk past the start: a distance greater than the cursor's
absolute position yields `io.EOF` and leaves the block chain unchanged. -/
theorem seekBack_eof : ∀ (fuel : ℕ) (o : Obj) (k : ℕ),
    SeekWFCore o → sumOff o < k → 2 * o.posBlockIdx + 3 ≤ fuel →
    ∃ o', seekBack o (k : ℤ) fuel = some (.error .eof, o') ∧ o'.blocks = o.blocks
  | 0, o, k, hwf, hk, hfuel => by omega
  | fuel + 1, o, k, hwf, hk, hfuel => by
    obtain ⟨⟨hne, hEndlt, hNext, hpos⟩, hidx, hoff, hofs⟩ := hwf
    have hts := sumEnds_take_succ o.blocks o.posBlockIdx hidx
    have hofflt : o.posBlockOff < 2 ^ 32 := lt_of_le_of_lt hoff (hEndlt _ hidx)
    have hk0 : k ≠ 0 := by
      intro hcon
      subst hcon
      omega
    rw [seekBack, if_neg (show ¬((k : ℤ) = 0) by simpa using hk0)]
    by_cases hzz : o.posBlockOff = 0 ∧ o.posBlockIdx = 0
    · rw [if_pos hzz]
      exact ⟨o, rfl, rfl⟩
    rw [if_neg hzz]
    simp only []
    by_cases hC : k < o.posBlockOff
    · exfalso
      unfold sumOff at hk
      omega
    have hgt : ¬(((o.posBlockOff : ℕ) : ℤ) > (k : ℤ)) := by exact_mod_cast hC
    rw [if_neg hgt, sub32_eq o.posBlockOff o.posBlockOff le_rfl hofflt]
    have hzero : o.posBlockOff - o.posBlockOff = 0 := by omega
    rw [hzero]
    by_cases hi0 : o.posBlockIdx = 0
    · -- in the first block already: one more step reports EOF
      have hbnd : ¬((0 : ℕ) = 0 ∧ o.posBlockIdx ≠ 0) := fun hcon => hcon.2 hi0
      rw [if_neg hbnd]
      have hklt : o.posBlockOff < k := by
        unfold sumOff at hk
        omega
      have hz : ¬((k : ℤ) - (o.posBlockOff : ℕ) = 0) := by omega
      rw [if_neg hz]
      have hcast : (k : ℤ) - (o.posBlockOff : ℕ) =
          ((k - o.posBlockOff : ℕ) : ℤ) := by omega
      rw [hcast]
      exact ⟨_, seekBack_zero_eof fuel _ _ (by omega) rfl
        (show o.posBlockIdx = 0 from hi0) (by omega), rfl⟩
    · -- jump to the previous block and recurse
      have hbnd : ((0 : ℕ) = 0 ∧ o.posBlockIdx ≠ 0) := ⟨rfl, hi0⟩
      rw [if_pos hbnd]
      have hidxm : o.posBlockIdx - 1 < o.blocks.length := by omega
      have hbm : o.blocks.get? (o.posBlockIdx - 1) =
          some (o.blocks.getD (o.posBlockIdx - 1) dummyBlock) := by
        rw [List.get?_eq_getElem?, List.getElem?_eq_getElem hidxm,
          List.getD_eq_getElem _ _ hidxm]
      rw [hbm]
      simp only []
      have htsm := sumEnds_take_succ o.blocks (o.posBlockIdx - 1) hidxm
      have hidxs : o.posBlockIdx - 1 + 1 = o.posBlockIdx := by omega
      rw [hidxs] at htsm
      have hklt : o.posBlockOff < k := by
        unfold sumOff at hk
        omega
      have hz : ¬((k : ℤ) - (o.posBlockOff : ℕ) = 0) := by omega
      rw [if_neg hz]
      have hcast : (k : ℤ) - (o.posBlockOff : ℕ) =
          ((k - o.posBlockOff : ℕ) : ℤ) := by omega
      rw [hcast]
      obtain ⟨o'', heq, hblocks⟩ :=
        seekBack_eof fuel
          ⟨o.blocks, o.posBlockIdx - 1,
            (o.blocks.getD (o.posBlockIdx - 1) dummyBlock).End,
            o.offset - (o.posBlockOff : ℕ)⟩
          (k - o.posBlockOff)
          ⟨⟨hne, hEndlt, hNext, hpos⟩, hidxm, le_rfl, by
            show o.offset - _ = _
            unfold sumOff
            simp only []
            unfold sumOff at hofs
            push_cast
            omega⟩
          (by
            show sumOff _ < k - o.posBlockOff
            unfold sumOff
            simp only []
            unfold sumOff at hk
            omega)
          (by
            show 2 * (o.posBlockIdx - 1) + 3 ≤ fuel
            omega)
      exact ⟨o'', heq, hblocks⟩

end KV

namespace KV

/-- C4 (amended).  `Object.Seek` on a well-formed object whose cursor is not
parked at the end of a non-tail block: `whence = start` lands at `offset`
and `whence = current` at `position + offset`, but `whence = end` walks
**backwards** from the end and lands at `size - offset` — not at
`size + offset` as a normal stream seek would.  Out-of-range targets yield
`io.EOF`; no variant grows or shrinks the block chain; seeking exactly to
the end parks the cursor at `(tailIndex, tail.End)`; a whence other than
`0`, `1`, `2` errors and returns the object unchanged. -/
theorem object_seek_spec (o : Obj) (off : ℤ) (fuel : ℕ)
    (hwf : SeekWF o) (hfuel : 2 * o.blocks.length + 3 ≤ fuel) :
    (0 ≤ off → off ≤ objSize o →
      ∃ o', o.seek off 0 fuel = some (.ok off, o') ∧ o'.blocks = o.blocks ∧
        (sumOff o' : ℤ) = off ∧ o'.offset = off ∧ SeekWF o' ∧
        (off = objSize o → o'.posBlockIdx + 1 = o'.blocks.length ∧
          o'.posBlockOff = (o'.blocks.getD o'.posBlockIdx dummyBlock).End)) ∧
    (objSize o < off ∨ off < 0 →
      ∃ o', o.seek off 0 fuel = some (.error .eof, o') ∧ o'.blocks = o.blocks) ∧
    (0 ≤ o.offset + off → o.offset + off ≤ objSize o →
      ∃ o', o.seek off 1 fuel = some (.ok (o.offset + off), o') ∧ o'.blocks = o.blocks ∧
        (sumOff o' : ℤ) = o.offset + off ∧ o'.offset = o.offset + off ∧ SeekWFCore o') ∧
    (objSize o < o.offset + off ∨ o.offset + off < 0 →
      ∃ o', o.seek off 1 fuel = some (.error .eof, o') ∧ o'.blocks = o.blocks) ∧
    (0 ≤ off → off ≤ objSize o →
      ∃ o', o.seek off 2 fuel = some (.ok (objSize o - off), o') ∧ o'.blocks = o.blocks ∧
        (sumOff o' : ℤ) = objSize o - off ∧ SeekWFCore o') ∧
    (objSize o < off →
      ∃ o', o.seek off 2 fuel = some (.error .eof, o') ∧ o'.blocks = o.blocks) ∧
    (∀ w, 3 ≤ w → o.seek off w fuel = some (.error .unknownWhence, o)) := by
  obtain ⟨⟨⟨hne, hEndlt, hNext, hpos⟩, hidx, hoff, hofs⟩, heager⟩ := hwf
  have hlen0 : 0 < o.blocks.length := List.length_pos.mpr hne
  have hsize := objSize_eq o
  have hsumle := sumOff_le_total o ⟨hidx, hoff, hofs⟩
  have hwfS : SeekWF ⟨o.blocks, 0, 0, 0⟩ := by
    refine ⟨⟨⟨hne, hEndlt, hNext, hpos⟩, hlen0, Nat.zero_le _, by
      show (0 : ℤ) = _
      unfold sumOff
      simp [sumEnds]⟩, ?_⟩
    show (0 : ℕ) = (o.blocks.getD 0 dummyBlock).End → 0 + 1 = o.blocks.length
    intro hcon
    by_contra hcon2
    have := hpos 0 (by omega)
    omega
  have hsumS : sumOff ⟨o.blocks, 0, 0, 0⟩ = 0 := by
    unfold sumOff
    simp [sumEnds]
  have hidxE : o.blocks.length - 1 < o.blocks.length := by omega
  have htsE := sumEnds_take_succ o.blocks (o.blocks.length - 1) hidxE
  have htakeE : o.blocks.take (o.blocks.length - 1 + 1) = o.blocks := by
    have : o.blocks.length - 1 + 1 = o.blocks.length := by omega
    rw [this]
    simp
  rw [htakeE] at htsE
  have hbmE : o.blocks.get? (o.blocks.length - 1) =
      some (o.blocks.getD (o.blocks.length - 1) dummyBlock) := by
    rw [List.get?_eq_getElem?, List.getElem?_eq_getElem hidxE,
      List.getD_eq_getElem _ _ hidxE]
  have hwfE : SeekWFCore ⟨o.blocks, o.blocks.length - 1,
      (o.blocks.getD (o.blocks.length - 1) dummyBlock).End, objSize o⟩ := by
    refine ⟨⟨hne, hEndlt, hNext, hpos⟩, hidxE, le_rfl, ?_⟩
    show objSize o = _
    rw [hsize]
    unfold sumOff
    simp only []
    omega
  have hsumE : sumOff ⟨o.blocks, o.blocks.length - 1,
      (o.blocks.getD (o.blocks.length - 1) dummyBlock).End, objSize o⟩ =
      sumEnds o.blocks := by
    unfold sumOff
    simp only []
    omega
  refine ⟨?_, ?_, ?_, ?_, ?_, ?_, ?_⟩
  · -- whence = start, in bounds
    intro h0 hle
    rw [Obj.seek]
    rw [seekFromStart]
    have hoffk : off = ((off.toNat : ℕ) : ℤ) := (Int.toNat_of_nonneg h0).symm
    rw [hoffk]
    obtain ⟨o', heq, hblocks, hsum, hofs2, hwf2⟩ :=
      seekForward_ok fuel ⟨o.blocks, 0, 0, 0⟩ off.toNat hwfS
        (by rw [hsumS]; show 0 + off.toNat ≤ sumEnds o.blocks; omega)
        (by show o.blocks.length - 0 + 2 ≤ fuel; omega)
    refine ⟨o', ?_, hblocks, by rw [hsum, hsumS]; omega,
      by rw [hofs2]; show (0 : ℤ) + _ = _; omega, hwf2, ?_⟩
    · rw [heq]
      have hz : (⟨o.blocks, 0, 0, 0⟩ : Obj).offset + (off.toNat : ℤ) =
          ((off.toNat : ℕ) : ℤ) := by
        show (0 : ℤ) + _ = _
        ring
      rw [hz]
    · intro hexact
      have hsum2 : sumOff o' = sumEnds o.blocks := by
        rw [hsum, hsumS]
        omega
      have hcw2 : cursorWF o' := hwf2.1.2
      have hoffend := sumOff_total_at_end o' hcw2 (by rw [hsum2, hblocks])
      exact ⟨hwf2.2 hoffend, hoffend⟩
  · -- whence = start, out of range
    intro hout
    rw [Obj.seek]
    rw [seekFromStart]
    rcases hout with hgt | hneg
    · have hoffk : off = ((off.toNat : ℕ) : ℤ) := (Int.toNat_of_nonneg (by omega)).symm
      rw [hoffk]
      obtain ⟨o', heq, hblocks⟩ :=
        seekForward_eof fuel ⟨o.blocks, 0, 0, 0⟩ off.toNat hwfS
          (by rw [hsumS]; show sumEnds o.blocks < 0 + off.toNat; omega)
          (by show o.blocks.length - 0 + 2 ≤ fuel; omega)
      exact ⟨o', heq, hblocks⟩
    · obtain ⟨f, rfl⟩ : ∃ f, fuel = f + 1 := ⟨fuel - 1, by omega⟩
      rw [seekForward, if_pos hneg]
      have hoffk : -off = (((-off).toNat : ℕ) : ℤ) :=
        (Int.toNat_of_nonneg (by omega)).symm
      rw [hoffk]
      exact ⟨_, seekBack_zero_eof (f + 1) _ _ (by omega) rfl rfl (by omega), rfl⟩
  · -- whence = current, in bounds
    intro h0 hle
    rw [Obj.seek]
    by_cases hpos2 : 0 ≤ off
    · have hoffk : off = ((off.toNat : ℕ) : ℤ) := (Int.toNat_of_nonneg hpos2).symm
      rw [hoffk]
      obtain ⟨o', heq, hblocks, hsum, hofs2, hwf2⟩ :=
        seekForward_ok fuel o off.toNat ⟨⟨⟨hne, hEndlt, hNext, hpos⟩, hidx, hoff, hofs⟩, heager⟩
          (by omega) (by omega)
      exact ⟨o', heq, hblocks, by omega, by omega, hwf2.1⟩
    · obtain ⟨f, rfl⟩ : ∃ f, fuel = f + 1 := ⟨fuel - 1, by omega⟩
      rw [seekForward, if_pos (by omega)]
      have hoffk : -off = (((-off).toNat : ℕ) : ℤ) :=
        (Int.toNat_of_nonneg (by omega)).symm
      rw [hoffk]
      obtain ⟨o', heq, hblocks, hsum, hofs2, hwf2⟩ :=
        seekBack_ok (f + 1) o (-off).toNat ⟨⟨hne, hEndlt, hNext, hpos⟩, hidx, hoff, hofs⟩
          (by omega) (by omega)
      refine ⟨o', ?_, hblocks, by omega, by omega, hwf2⟩
      rw [heq]
      have hz : o.offset - (((-off).toNat : ℕ) : ℤ) = o.offset + off := by omega
      rw [hz]
  · -- whence = current, out of range
    intro hout
    rw [Obj.seek]
    rcases hout with hgt | hneg
    · have hpos2 : 0 ≤ off := by omega
      have hoffk : off = ((off.toNat : ℕ) : ℤ) := (Int.toNat_of_nonneg hpos2).symm
      rw [hoffk]
      obtain ⟨o', heq, hblocks⟩ :=
        seekForward_eof fuel o off.toNat ⟨⟨⟨hne, hEndlt, hNext, hpos⟩, hidx, hoff, hofs⟩, heager⟩
          (by omega) (by omega)
      exact ⟨o', heq, hblocks⟩
    · have hneg2 : off < 0 := by omega
      obtain ⟨f, rfl⟩ : ∃ f, fuel = f + 1 := ⟨fuel - 1, by omega⟩
      rw [seekForward, if_pos (by omega)]
      have hoffk : -off = (((-off).toNat : ℕ) : ℤ) :=
        (Int.toNat_of_nonneg (by omega)).symm
      rw [hoffk]
      obtain ⟨o', heq, hblocks⟩ :=
        seekBack_eof (f + 1) o (-off).toNat ⟨⟨hne, hEndlt, hNext, hpos⟩, hidx, hoff, hofs⟩
          (by omega) (by omega)
      exact ⟨o', heq, hblocks⟩
  · -- whence = end, in bounds: size - offset
    intro h0 hle
    rw [Obj.seek]
    rw [seekFromEnd, hbmE]
    simp only []
    have hoffk : off = ((off.toNat : ℕ) : ℤ) := (Int.toNat_of_nonneg h0).symm
    rw [hoffk]
    obtain ⟨o', heq, hblocks, hsum, hofs2, hwf2⟩ :=
      seekBack_ok fuel ⟨o.blocks, o.blocks.length - 1,
          (o.blocks.getD (o.blocks.length - 1) dummyBlock).End, objSize o⟩
        off.toNat hwfE (by rw [hsumE]; omega) (by simp only []; omega)
    refine ⟨o', ?_, hblocks, by rw [hsum, hsumE]; omega, hwf2⟩
    rw [heq]
  · -- whence = end, further back than the start
    intro hgt
    rw [Obj.seek]
    rw [seekFromEnd, hbmE]
    simp only []
    have hoffk : off = ((off.toNat : ℕ) : ℤ) := (Int.toNat_of_nonneg (by omega)).symm
    rw [hoffk]
    obtain ⟨o', heq, hblocks⟩ :=
      seekBack_eof fuel ⟨o.blocks, o.blocks.length - 1,
          (o.blocks.getD (o.blocks.length - 1) dummyBlock).End, objSize o⟩
        off.toNat hwfE (by rw [hsumE]; omega) (by simp only []; omega)
    exact ⟨o', heq, hblocks⟩
  · -- unknown whence
    intro w hw
    rcases w with _ | _ | _ | w'
    · omega
    · omega
    · omega
    · rw [Obj.seek]
      all_goals omega

end KV

namespace KV

/-- Witness for the amended claim C4 at the concrete single-block object of
the counterexample: `Seek(5, end)` lands at `size - 5 = 21`. -/
theorem object_seek_spec_witness :
    ∃ o', c4Obj.seek 5 2 100 = some (.ok (objSize c4Obj - 5), o') ∧
      o'.blocks = c4Obj.blocks ∧ (sumOff o' : ℤ) = objSize c4Obj - 5 ∧
      SeekWFCore o' := by
  exact (object_seek_spec c4Obj 5 100
      (by
        unfold SeekWF SeekWFCore blocksWF cursorWF
        refine ⟨⟨⟨by decide, by decide, by decide, ?_⟩, by decide, by decide, by decide⟩,
          by decide⟩
        intro i hi
        rw [show c4Obj.blocks.length = 1 from rfl] at hi
        omega)
      (by decide)).2.2.2.2.1 (by decide) (by decide)

end KV
